import Mathlib

/-!
Verification development for the sayhisort library (`sayhisort.h`), an
in-place stable block merge sort.  The C++ source is shallowly embedded:

* the array under sort is a `List α` carried inside a `SortState` record,
  together with two instrumentation counters (number of comparator
  invocations and number of element swaps);
* C++ iterators become natural-number positions into that list; the
  `ReversedIterator` adapter becomes a boolean `rev` parameter threaded
  through every routine the source instantiates at reversed iterators
  (a reversed iterator with base `p` dereferences position `p - 1`,
  advances by subtracting, and compares mirrored);
* `iter_comp` (the comparator fused with the projection) becomes an
  arbitrary boolean relation `cmp`, invoked through `icomp` which applies
  the `strict`/non-strict and reversed-operand conventions of the source;
* every C++ loop whose termination is not structural is written as
  structural recursion on an explicit fuel argument; the fuel passed by
  each caller provably dominates the number of iterations the loop
  performs, and exhausting fuel returns the current state unchanged;
* all element movement goes through the single primitive `iswap`, which
  swaps two in-range positions (out-of-range indices leave the state
  unchanged; such indices are never produced by the algorithm).
-/

namespace Sayhisort

/-- Execution state: list contents plus counters for comparator calls and swaps. -/
structure SortState (α : Type) where
  arr : List α
  comps : Nat
  swaps : Nat
  deriving Repr, DecidableEq

variable {α : Type} [Inhabited α]

/-- Total indexing into the working list (default value outside the range). -/
def getE (l : List α) (i : Nat) : α := l.getD i default

/-- The `iter_swap` primitive: exchange positions `i` and `j` and count one swap. -/
def iswap (s : SortState α) (i j : Nat) : SortState α :=
  if i < s.arr.length ∧ j < s.arr.length then
    { arr := (s.arr.set i (getE s.arr j)).set j (getE s.arr i),
      comps := s.comps, swaps := s.swaps + 1 }
  else s

/-- Position dereferenced by an iterator with base `p` (`*it`). -/
def idx (rev : Bool) (p : Nat) : Nat := if rev then p - 1 else p

/-- Iterator advance `it + d`. -/
def iadd (rev : Bool) (p d : Nat) : Nat := if rev then p - d else p + d

/-- Iterator retreat `it - d`. -/
def isubd (rev : Bool) (p d : Nat) : Nat := if rev then p + d else p - d

/-- Iterator difference `p - q`. -/
def isub (rev : Bool) (p q : Nat) : Nat := if rev then q - p else p - q

/-- Iterator comparison `p < q`. -/
def iltb (rev : Bool) (p q : Nat) : Bool := if rev then decide (q < p) else decide (p < q)

/-- Iterator increment (`++it`). -/
def iinc (rev : Bool) (p : Nat) : Nat := iadd rev p 1

/-- Iterator decrement (`--it`). -/
def idec (rev : Bool) (p : Nat) : Nat := isubd rev p 1

/-- The source's `iter_comp(lhs, rhs, bool_constant<strict>)`: `strict` gives
`comp(*lhs, *rhs)`, non-strict gives `!comp(*rhs, *lhs)`, and on reversed
iterators the operands are mirrored.  One comparator invocation is counted. -/
def icomp (cmp : α → α → Bool) (rev strict : Bool) (s : SortState α) (p q : Nat) :
    Bool × SortState α :=
  let a := getE s.arr (idx rev p)
  let b := getE s.arr (idx rev q)
  let c :=
    match rev, strict with
    | false, true => cmp a b
    | false, false => !cmp b a
    | true, true => cmp b a
    | true, false => !cmp a b
  (c, { s with comps := s.comps + 1 })

/-- Iterator-level swap (dereferenced positions are exchanged). -/
def iswapIt (rev : Bool) (s : SortState α) (p q : Nat) : SortState α :=
  iswap s (idx rev p) (idx rev q)

/-- Loop of `OverApproxSqrt`: `for (p = x; p >= 8; p /= 4) ++n`. -/
def OverApproxSqrtLoop : Nat → Nat → Nat → Nat
  | 0, _, n => n
  | fuel + 1, p, n => if 8 ≤ p then OverApproxSqrtLoop fuel (p / 4) (n + 1) else n

/-- `OverApproxSqrt(x)`: integer over-approximation of `sqrt x` (precondition `x >= 8`),
a power-of-two seed refined by one Heron step, with ceilings throughout. -/
def OverApproxSqrt (x : Nat) : Nat :=
  let n := OverApproxSqrtLoop x x 1
  let r0 := (1 <<< (n - 1)) + ((x - 1) >>> (n + 1)) + 1
  (r0 + (x - 1) / r0) / 2 + 1

/-- Ceiling of the real square root of a natural number. -/
def ceilSqrt (n : Nat) : Nat := if n = 0 then 0 else Nat.sqrt (n - 1) + 1

/-- The local `num_desired_keys` computed by `Sort` for `len > 16`. -/
def sortNumDesiredKeys (len : Nat) : Nat := 2 * OverApproxSqrt len - 2

/-- Per-level state of the bottom-up merge sort driver. -/
structure MergeSortControl where
  imit_len : Nat
  buf_len : Nat
  bufferable_len : Nat
  data_len : Nat
  log2_num_seqs : Nat
  seq_len : Nat
  forward : Bool
  deriving Repr, DecidableEq

/-- Constructor loop: `while ((data_len - 1) >> (log2_num_seqs + 3)) ++log2_num_seqs`. -/
def MSCLoop : Nat → Nat → Nat → Nat
  | 0, _, l => l
  | fuel + 1, d, l => if (d - 1) >>> (l + 3) ≠ 0 then MSCLoop fuel d (l + 1) else l

/-- `MergeSortControl` construction from `(num_keys, data_len)`. -/
def MergeSortControl.make (num_keys data_len : Nat) : MergeSortControl :=
  let imit_len := if num_keys ≠ 0 then (num_keys + 2) / 4 * 2 - 2 else 0
  let buf_len := if num_keys ≠ 0 then num_keys - imit_len else 0
  let bufferable_len := if num_keys ≠ 0 then (imit_len + 2) / 2 * buf_len else 0
  let log2_num_seqs := MSCLoop data_len data_len 1
  { imit_len := imit_len, buf_len := buf_len, bufferable_len := bufferable_len,
    data_len := data_len, log2_num_seqs := log2_num_seqs,
    seq_len := ((data_len - 1) >>> log2_num_seqs) + 1, forward := true }

/-- `MergeSortControl::Next()`: advance one merge level; a nonzero return value
reports the length of the just-retired merge buffer. -/
def MergeSortControl.next (c : MergeSortControl) : Nat × MergeSortControl :=
  let log2_num_seqs := c.log2_num_seqs - 1
  let seq_len := ((c.data_len - 1) >>> log2_num_seqs) + 1
  if c.buf_len = 0 then
    (0, { c with log2_num_seqs := log2_num_seqs, seq_len := seq_len })
  else
    let forward := !c.forward
    if log2_num_seqs = 0 ∨ c.bufferable_len < seq_len then
      (c.buf_len,
        { c with log2_num_seqs := log2_num_seqs, seq_len := seq_len, forward := forward,
                 imit_len := c.imit_len + c.buf_len / 2 * 2, buf_len := 0,
                 bufferable_len := 0 })
    else
      (0, { c with log2_num_seqs := log2_num_seqs, seq_len := seq_len, forward := forward })

/-- Rational-counter divider producing the exact length of every run. -/
structure SequenceDivider where
  log2_num_seqs : Nat
  num_seqs : Nat
  remainder : Nat
  frac_counter : Nat
  deriving Repr, DecidableEq

/-- `SequenceDivider` construction (the `forward` template parameter flips the remainder). -/
def SequenceDivider.make (forward : Bool) (data_len log2_num_seqs : Nat) : SequenceDivider :=
  let num_seqs := 1 <<< log2_num_seqs
  let remainder := (data_len - 1) % num_seqs + 1
  { log2_num_seqs := log2_num_seqs, num_seqs := num_seqs,
    remainder := if forward then remainder else num_seqs - remainder, frac_counter := 0 }

/-- `SequenceDivider::Next()`.  The bit-clearing `frac_counter &= ~(1 << log2)` is
rendered as subtracting the single-bit conjunction `frac &&& mask`. -/
def SequenceDivider.next (forward : Bool) (sd : SequenceDivider) : Bool × SequenceDivider :=
  let frac := sd.frac_counter + sd.remainder
  let mask := 1 <<< sd.log2_num_seqs
  let no_carry := frac &&& mask = 0
  let no_carry := if forward then no_carry else ¬no_carry
  (decide no_carry,
    { sd with frac_counter := frac - (frac &&& mask), num_seqs := sd.num_seqs - 1 })

/-- `SequenceDivider::IsEnd()`. -/
def SequenceDivider.isEnd (sd : SequenceDivider) : Bool := sd.num_seqs = 0

/-- Block geometry of one merge level. -/
structure BlockingParam where
  num_blocks : Nat
  block_len : Nat
  first_block_len : Nat
  last_block_len : Nat
  deriving Repr, DecidableEq

/-- `DetermineBlocking`: block count and lengths for the current level. -/
def DetermineBlocking (c : MergeSortControl) : BlockingParam :=
  let seq_len := c.seq_len
  let max_num_blocks := c.imit_len + 2
  let num_blocks :=
    if c.buf_len ≠ 0 then ((seq_len - 1) / c.buf_len + 1) * 2
    else
      let limit_num_blocks := seq_len / OverApproxSqrt (seq_len * 2) * 2
      if max_num_blocks < limit_num_blocks then max_num_blocks else limit_num_blocks
  let block_len := (seq_len - 1) / (num_blocks / 2) + 1
  let residual_len := seq_len - block_len * (num_blocks / 2 - 1)
  { num_blocks := num_blocks, block_len := block_len,
    first_block_len := residual_len, last_block_len := residual_len }

/-- Modelled from the spec: the repository's headers contain no shell sort (the
driver uses `HeapSort`), so the `shell_sort` reference algorithm named by the
spec is modelled from its words: Ciura's gap sequence `1,4,10,23,57,132,301,701`
extended by `x -> 2*x + x/4` for gaps from `1577` on, truncated to gaps below
the length, largest gap first, then gapped insertion sort for each gap. -/
def ciuraGaps : Nat → List Nat
  | 0 => [701, 301, 132, 57, 23, 10, 4, 1]
  | fuel + 1 =>
    match ciuraGaps fuel with
    | [] => []
    | g :: gs => (2 * g + g / 4) :: g :: gs

/-- Modelled from the spec: gaps of `shell_sort` applicable to length `len`
(every gap of the extended Ciura sequence below `len`, in decreasing order). -/
def shellGaps (len : Nat) : List Nat := (ciuraGaps len).filter (· < len)

/-- Modelled from the spec: one gapped insertion step, sifting the element at
absolute position `i` backwards by stride `gap` (never below `base`) while it
is strictly below its predecessor. -/
def shellSift (cmp : α → α → Bool) : Nat → SortState α → Nat → Nat → Nat → SortState α
  | 0, s, _, _, _ => s
  | fuel + 1, s, base, gap, i =>
    if base + gap ≤ i ∧ cmp (getE s.arr i) (getE s.arr (i - gap)) then
      shellSift cmp fuel (iswap s i (i - gap)) base gap (i - gap)
    else s

/-- Modelled from the spec: gapped insertion sort pass over `[base, base+len)`. -/
def shellPass (cmp : α → α → Bool) : Nat → SortState α → Nat → Nat → Nat → Nat → SortState α
  | 0, s, _, _, _, _ => s
  | fuel + 1, s, base, len, gap, i =>
    if i < len then
      shellPass cmp fuel (shellSift cmp (base + i) s base gap (base + i)) base len gap (i + 1)
    else s

/-- Modelled from the spec: `shell_sort(data, len)` with Ciura's gap sequence. -/
def shellSort (cmp : α → α → Bool) (s : SortState α) (data len : Nat) : SortState α :=
  (shellGaps len).foldl (fun s gap => shellPass cmp len s data len gap gap) s

/-- Helix pass of `Rotate`: `do iter_swap(first++, middle++); while (middle != last)`. -/
def RotateSwapF (rev : Bool) : Nat → SortState α → Nat → Nat → Nat → SortState α
  | 0, s, _, _, _ => s
  | fuel + 1, s, first, middle, last =>
    let s := iswapIt rev s first middle
    let first := iinc rev first
    let middle := iinc rev middle
    if middle ≠ last then RotateSwapF rev fuel s first middle last else s

/-- Helix pass of `Rotate`: `do iter_swap(--last, --middle); while (middle != first)`. -/
def RotateSwapB (rev : Bool) : Nat → SortState α → Nat → Nat → Nat → SortState α
  | 0, s, _, _, _ => s
  | fuel + 1, s, first, middle, last =>
    let last := idec rev last
    let middle := idec rev middle
    let s := iswapIt rev s last middle
    if middle ≠ first then RotateSwapB rev fuel s first middle last else s

/-- Two-pointer reversal `while (lo < --hi) iter_swap(lo++, hi)`. -/
def RevRange (rev : Bool) : Nat → SortState α → Nat → Nat → SortState α
  | 0, s, _, _ => s
  | fuel + 1, s, lo, hi =>
    let hi := idec rev hi
    if iltb rev lo hi then RevRange rev fuel (iswapIt rev s lo hi) (iinc rev lo) hi else s

/-- Main loop of `Rotate`: helix rotation while the span exceeds 64, then
triple reversal on the remaining small span. -/
def RotateLoop (rev : Bool) : Nat → SortState α → Nat → Nat → Nat → Nat → Nat → Nat →
    SortState α
  | 0, s, _, _, _, _, _, _ => s
  | fuel + 1, s, first, middle, last, l_len, r_len, len =>
    if 64 < len then
      if l_len ≤ r_len then
        let rem := r_len % l_len
        let s := RotateSwapF rev r_len s first middle last
        if rem = 0 then s
        else
          RotateLoop rev fuel s (iadd rev first r_len) (isubd rev last rem) last
            (l_len - rem) rem l_len
      else
        let rem := l_len % r_len
        let s := RotateSwapB rev l_len s first middle last
        if rem = 0 then s
        else
          RotateLoop rev fuel s first (iadd rev first rem) (isubd rev last l_len)
            rem (r_len - rem) r_len
    else
      let s := RevRange rev (isub rev middle first) s first middle
      let s := RevRange rev (isub rev last middle) s middle last
      RevRange rev (isub rev last first) s first last

/-- `Rotate(first, middle, last)` (preconditions `first < middle < last`). -/
def Rotate (rev : Bool) (s : SortState α) (first middle last : Nat) : SortState α :=
  let l_len := isub rev middle first
  let r_len := isub rev last middle
  let len := l_len + r_len
  RotateLoop rev (len + 1) s first middle last l_len r_len len

/-- Monobound binary-search loop of `BinarySearch`. -/
def BinarySearchLoop (strict rev : Bool) (cmp : α → α → Bool) :
    Nat → SortState α → Nat → Nat → Nat → Nat × SortState α
  | 0, s, base, _, _ => (base, s)
  | fuel + 1, s, base, len, key =>
    let mid := len / 2
    if mid ≠ 0 then
      let pivot := iadd rev base mid
      let (c, s) := icomp cmp rev strict s (idec rev pivot) key
      BinarySearchLoop strict rev cmp fuel s (if c then pivot else base) (len - mid) key
    else (base, s)

/-- `BinarySearch<strict>(first, last, key)` over a sorted range (`first < last`). -/
def BinarySearch (strict rev : Bool) (cmp : α → α → Bool) (first last key : Nat)
    (s : SortState α) : Nat × SortState α :=
  BinarySearchLoop strict rev cmp (isub rev last first + 1) s first
    (isub rev last first + 1) key

/-- Result of a basic merge: which input ran out first, and where the rest starts. -/
structure MergeResult where
  xs_consumed : Bool
  rest : Nat
  deriving Repr, DecidableEq

/-- Cross-merge main loop of `MergeWithBuf` (emits up to two elements per step). -/
def MWBCross (xsr rev : Bool) (cmp : α → α → Bool) :
    Nat → SortState α → Nat → Nat → Nat → Nat → Nat → Nat × Nat × Nat × SortState α
  | 0, s, buf, xs, ys, _, _ => (buf, xs, ys, s)
  | fuel + 1, s, buf, xs, ys, xs_last, ys_last =>
    if iltb rev xs (idec rev xs_last) ∧ iltb rev ys (idec rev ys_last) then
      let (c1, s) := icomp cmp rev xsr s (iinc rev xs) ys
      if c1 then
        let s := iswapIt rev s buf xs
        let s := iswapIt rev s (iinc rev buf) (iinc rev xs)
        MWBCross xsr rev cmp fuel s (iadd rev buf 2) (iadd rev xs 2) ys xs_last ys_last
      else
        let (c2, s) := icomp cmp rev xsr s xs (iinc rev ys)
        if ¬c2 then
          let s := iswapIt rev s buf ys
          let s := iswapIt rev s (iinc rev buf) (iinc rev ys)
          MWBCross xsr rev cmp fuel s (iadd rev buf 2) xs (iadd rev ys 2) xs_last ys_last
        else
          let (y_pos, s) := icomp cmp rev xsr s xs ys
          let s := iswapIt rev s (iadd rev buf (if y_pos then 0 else 1)) xs
          let s := iswapIt rev s (iadd rev buf (if y_pos then 1 else 0)) ys
          MWBCross xsr rev cmp fuel s (iadd rev buf 2) (iinc rev xs) (iinc rev ys)
            xs_last ys_last
    else (buf, xs, ys, s)

/-- Tail loop of `MergeWithBuf` when exactly one `xs` element remains. -/
def MWBTailX (xsr rev : Bool) (cmp : α → α → Bool) :
    Nat → SortState α → Nat → Nat → Nat → Nat → Bool × Nat × Nat × Nat × SortState α
  | 0, s, buf, xs, ys, _ => (false, buf, xs, ys, s)
  | fuel + 1, s, buf, xs, ys, ys_last =>
    let (c, s) := icomp cmp rev xsr s xs ys
    if c then
      let s := iswapIt rev s buf xs
      (true, iinc rev buf, iinc rev xs, ys, s)
    else
      let s := iswapIt rev s buf ys
      let buf := iinc rev buf
      let ys := iinc rev ys
      if iltb rev ys ys_last then MWBTailX xsr rev cmp fuel s buf xs ys ys_last
      else (false, buf, xs, ys, s)

/-- Tail loop of `MergeWithBuf` when exactly one `ys` element remains. -/
def MWBTailY (xsr rev : Bool) (cmp : α → α → Bool) :
    Nat → SortState α → Nat → Nat → Nat → Nat → Bool × Nat × Nat × Nat × SortState α
  | 0, s, buf, xs, ys, _ => (true, buf, xs, ys, s)
  | fuel + 1, s, buf, xs, ys, xs_last =>
    let (c, s) := icomp cmp rev xsr s xs ys
    if ¬c then
      let s := iswapIt rev s buf ys
      (false, iinc rev buf, xs, iinc rev ys, s)
    else
      let s := iswapIt rev s buf xs
      let buf := iinc rev buf
      let xs := iinc rev xs
      if iltb rev xs xs_last then MWBTailY xsr rev cmp fuel s buf xs ys xs_last
      else (true, buf, xs, ys, s)

/-- Final fixup of `MergeWithBuf`: `do iter_swap(--ys, --xs_last); while (xs_last != xs)`. -/
def MWBFinal (rev : Bool) : Nat → SortState α → Nat → Nat → Nat → Nat × SortState α
  | 0, s, ys, _, _ => (ys, s)
  | fuel + 1, s, ys, xs_last, xs =>
    let ys := idec rev ys
    let xs_last := idec rev xs_last
    let s := iswapIt rev s ys xs_last
    if xs_last ≠ xs then MWBFinal rev fuel s ys xs_last xs else (ys, s)

/-- `MergeWithBuf<is_xs_from_right>(buf, xs, ys, ys_last)`: merge two adjacent
runs into the moving buffer sitting before `xs`; returns the merge result and
the updated buffer iterator (passed by reference in the source). -/
def MergeWithBuf (xsr rev : Bool) (cmp : α → α → Bool) (buf xs ys ys_last : Nat)
    (s : SortState α) : MergeResult × Nat × SortState α :=
  let xs_last := ys
  let (buf, xs, ys, s) :=
    MWBCross xsr rev cmp (isub rev ys_last xs) s buf xs ys xs_last ys_last
  let xs_consumed := xs = xs_last
  let (xs_consumed, buf, xs, ys, s) :=
    if xs = idec rev xs_last then
      MWBTailX xsr rev cmp (isub rev ys_last ys + 1) s buf xs ys ys_last
    else if ys = idec rev ys_last then
      MWBTailY xsr rev cmp (isub rev xs_last xs + 1) s buf xs ys xs_last
    else (xs_consumed, buf, xs, ys, s)
  if xs_consumed then (⟨true, ys⟩, buf, s)
  else
    let (ys, s) := MWBFinal rev (isub rev xs_last xs + 1) s ys xs_last xs
    (⟨false, ys⟩, buf, s)

/-- Main loop of `MergeWithoutBuf`: binary search plus rotate, in place. -/
def MergeWithoutBufLoop (xsr rev : Bool) (cmp : α → α → Bool) :
    Nat → SortState α → Nat → Nat → Nat → MergeResult × SortState α
  | 0, s, _, ys, _ => (⟨true, ys⟩, s)
  | fuel + 1, s, xs, ys, ys_last =>
    let (xs, s) := BinarySearch xsr rev cmp xs ys ys s
    if xs = ys then (⟨true, ys⟩, s)
    else
      let ys_upper := iinc rev ys
      let (ys_upper, s) :=
        if ys_upper ≠ ys_last then BinarySearch (¬xsr) rev cmp ys_upper ys_last xs s
        else (ys_upper, s)
      let s := Rotate rev s xs ys ys_upper
      let xs := iadd rev xs (isub rev ys_upper ys)
      if ys_upper = ys_last then (⟨false, xs⟩, s)
      else MergeWithoutBufLoop xsr rev cmp fuel s xs ys_upper ys_last

/-- `MergeWithoutBuf<is_xs_from_right>(xs, ys, ys_last)`. -/
def MergeWithoutBuf (xsr rev : Bool) (cmp : α → α → Bool) (xs ys ys_last : Nat)
    (s : SortState α) : MergeResult × SortState α :=
  MergeWithoutBufLoop xsr rev cmp (isub rev ys_last ys + 1) s xs ys ys_last

/-- The `swapBlock` lambda's loop: `do iter_swap(a++, b++); while (--i)`. -/
def SwapBlockLoop (rev : Bool) : Nat → SortState α → Nat → Nat → SortState α
  | 0, s, _, _ => s
  | i + 1, s, a, b => SwapBlockLoop rev i (iswapIt rev s a b) (iinc rev a) (iinc rev b)

/-- The `swapBlock` lambda of `InterleaveBlocks`. -/
def SwapBlock (rev : Bool) (block_len : Nat) (s : SortState α) (a b : Nat) : SortState α :=
  if a = b then s else SwapBlockLoop rev block_len s a b

/-- Linear scan of `InterleaveBlocks` selecting the least key in `left_permuted`. -/
def ILBScan (rev : Bool) (cmp : α → α → Bool) :
    Nat → SortState α → Nat → Nat → Nat → Nat × SortState α
  | 0, s, _, _, least => (least, s)
  | fuel + 1, s, key, right_keys, least =>
    if iltb rev key right_keys then
      let (c, s) := icomp cmp rev true s key least
      ILBScan rev cmp fuel s (iinc rev key) right_keys (if c then key else least)
    else (least, s)

/-- Main loop of `InterleaveBlocks` (WikiSort-style block movement). -/
def ILBLoop (rev : Bool) (cmp : α → α → Bool) (block_len orig_right_key last_right_key : Nat) :
    Nat → SortState α → Nat → Nat → Nat → Nat → Nat → Nat → Nat → Nat × SortState α
  | 0, s, _, _, _, _, _, _, lrk => (lrk, s)
  | fuel + 1, s, left_keys, right_keys, left_blocks, right_blocks, llk, llb, lrk =>
    let (cond, s) :=
      if right_keys = last_right_key then (true, s)
      else
        let (c, s) := icomp cmp rev true s right_blocks llb
        (¬c, s)
    if cond then
      let s := iswapIt rev s left_keys llk
      let s := SwapBlock rev block_len s left_blocks llb
      let left_keys := iinc rev left_keys
      let left_blocks := iadd rev left_blocks block_len
      if left_keys = right_keys then (lrk, s)
      else
        let scan_start :=
          if iltb rev left_keys orig_right_key then orig_right_key else iinc rev left_keys
        let (llk, s) :=
          ILBScan rev cmp (isub rev right_keys scan_start) s scan_start right_keys left_keys
        let llb := iadd rev left_blocks (isub rev llk left_keys * block_len)
        ILBLoop rev cmp block_len orig_right_key last_right_key fuel s left_keys right_keys
          left_blocks right_blocks llk llb lrk
    else
      let s := iswapIt rev s left_keys right_keys
      let s := SwapBlock rev block_len s left_blocks right_blocks
      let (llk, llb) := if left_keys = llk then (right_keys, right_blocks) else (llk, llb)
      let lrk := if right_keys = lrk then left_keys else lrk
      ILBLoop rev cmp block_len orig_right_key last_right_key fuel s (iinc rev left_keys)
        (iinc rev right_keys) (iadd rev left_blocks block_len)
        (iadd rev right_blocks block_len) llk llb lrk

/-- `InterleaveBlocks(imit, blocks, imit_len, block_len)`: sort blocks by first
element, mirroring each block move in the imitation buffer; returns the
position that was the midpoint key between left- and right-origin keys. -/
def InterleaveBlocks (rev : Bool) (cmp : α → α → Bool) (imit blocks imit_len block_len : Nat)
    (s : SortState α) : Nat × SortState α :=
  if imit_len = 0 then (imit, s)
  else
    let right_keys := iadd rev imit (imit_len / 2)
    let right_blocks := iadd rev blocks (imit_len / 2 * block_len)
    let last_right_key := iadd rev right_keys (imit_len / 2)
    ILBLoop rev cmp block_len right_keys last_right_key (imit_len + 1) s imit right_keys
      blocks right_blocks imit blocks right_keys

/-- Partition loop of the buffered `DeinterleaveImitation`. -/
def DIBufLoop (rev : Bool) (cmp : α → α → Bool) (imit_end mid_key : Nat) :
    Nat → SortState α → Nat → Nat → Nat → Nat × Nat × SortState α
  | 0, s, _, lc, rc => (lc, rc, s)
  | fuel + 1, s, cur, lc, rc =>
    if cur ≠ imit_end then
      let (c, s) := icomp cmp rev true s cur mid_key
      if c then DIBufLoop rev cmp imit_end mid_key fuel (iswapIt rev s lc cur) (iinc rev cur)
        (iinc rev lc) rc
      else DIBufLoop rev cmp imit_end mid_key fuel (iswapIt rev s rc cur) (iinc rev cur) lc
        (iinc rev rc)
    else (lc, rc, s)

/-- Append loop of the buffered `DeinterleaveImitation`:
`do iter_swap(left_cur++, buf++); while (buf != right_cur)`. -/
def DIBufAppend (rev : Bool) : Nat → SortState α → Nat → Nat → Nat → SortState α
  | 0, s, _, _, _ => s
  | fuel + 1, s, lc, buf, rc =>
    let s := iswapIt rev s lc buf
    let buf := iinc rev buf
    if buf ≠ rc then DIBufAppend rev fuel s (iinc rev lc) buf rc else s

/-- `DeinterleaveImitation` with auxiliary buffer: partition the interleaved
keys into left- and right-origin halves via `buf`, then concatenate. -/
def DeinterleaveImitationBuf (rev : Bool) (cmp : α → α → Bool) (imit imit_len buf mid_key : Nat)
    (s : SortState α) : SortState α :=
  if imit_len = 0 then s
  else
    let s := iswapIt rev s mid_key buf
    let left_cur := mid_key
    let right_cur := iinc rev buf
    let cur := iinc rev mid_key
    let mid_key := buf
    let (left_cur, right_cur, s) :=
      DIBufLoop rev cmp (iadd rev imit imit_len) mid_key (imit_len + 1) s cur left_cur right_cur
    DIBufAppend rev (imit_len + 1) s left_cur buf right_cur

/-- One pass of the in-place `DeinterleaveImitation`: rotate every other
(right-run, left-run) pair; returns the pair count, the updated `mid_key` and
the carried `l_runlength`. -/
def DIPassLoop (rev : Bool) (cmp : α → α → Bool) (imit_end : Nat) :
    Nat → SortState α → Nat → Nat → Nat → Nat → Nat → Nat × Nat × Nat × SortState α
  | 0, s, _, l_rl, _, pairs, mid_key => (pairs, mid_key, l_rl, s)
  | fuel + 1, s, cur, l_rl, r_rl, pairs, mid_key =>
    let (atEnd, c, s) :=
      if cur = imit_end then (true, false, s)
      else
        let (c, s) := icomp cmp rev true s cur mid_key
        (false, c, s)
    if atEnd ∨ ¬c then
      let (l_rl, r_rl, pairs, mid_key, s) :=
        if l_rl ≠ 0 then
          let pairs := pairs + 1
          if pairs % 2 = 1 then
            let l_run := isubd rev cur l_rl
            let r_run := isubd rev l_run r_rl
            let s := Rotate rev s r_run l_run cur
            let mid_key := if pairs = 1 then isubd rev cur r_rl else mid_key
            (0, 0, pairs, mid_key, s)
          else (0, 0, pairs, mid_key, s)
        else (l_rl, r_rl, pairs, mid_key, s)
      if atEnd then (pairs, mid_key, l_rl, s)
      else DIPassLoop rev cmp imit_end fuel s (iinc rev cur) l_rl (r_rl + 1) pairs mid_key
    else
      DIPassLoop rev cmp imit_end fuel s (iinc rev cur)
        (l_rl + if r_rl ≠ 0 then 1 else 0) r_rl pairs mid_key

/-- Outer `do ... while (num_rl_pairs > 1)` of the in-place `DeinterleaveImitation`. -/
def DIInplaceLoop (rev : Bool) (cmp : α → α → Bool) (imit imit_end imit_len : Nat) :
    Nat → SortState α → Nat → Nat → SortState α
  | 0, s, _, _ => s
  | fuel + 1, s, l_rl, mid_key =>
    let (pairs, mid_key, l_rl, s) :=
      DIPassLoop rev cmp imit_end (imit_len + 1) s imit l_rl 0 0 mid_key
    if 1 < pairs then DIInplaceLoop rev cmp imit imit_end imit_len fuel s l_rl mid_key else s

/-- `DeinterleaveImitation`, in-place variant. -/
def DeinterleaveImitationInplace (rev : Bool) (cmp : α → α → Bool)
    (imit imit_len mid_key : Nat) (s : SortState α) : SortState α :=
  if imit_len = 0 then s
  else DIInplaceLoop rev cmp imit (iadd rev imit imit_len) imit_len (imit_len + 1) s 0 mid_key

/-- Skip loop of `MergeAdjacentBlocks` (buffered case):
`do iter_swap(buf++, xs++); while (xs != last_block_before_ys + 1)`. -/
def MABSkip (rev : Bool) : Nat → SortState α → Nat → Nat → Nat → Nat × Nat × SortState α
  | 0, s, buf, xs, _ => (buf, xs, s)
  | fuel + 1, s, buf, xs, target =>
    let s := iswapIt rev s buf xs
    let buf := iinc rev buf
    let xs := iinc rev xs
    if xs ≠ target then MABSkip rev fuel s buf xs target else (buf, xs, s)

/-- Final loop of `MergeAdjacentBlocks` (buffered case):
`while (xs != ys) iter_swap(buf++, xs++)`. -/
def MABFinal (rev : Bool) : Nat → SortState α → Nat → Nat → Nat → Nat × SortState α
  | 0, s, buf, _, _ => (buf, s)
  | fuel + 1, s, buf, xs, ys =>
    if xs ≠ ys then MABFinal rev fuel (iswapIt rev s buf xs) (iinc rev buf) (iinc rev xs) ys
    else (buf, s)

/-- Main block-walking loop of `MergeAdjacentBlocks`. -/
def MABLoop (has_buf rev : Bool) (cmp : α → α → Bool) (p : BlockingParam) (mid_key : Nat) :
    Nat → SortState α → Nat → Nat → Nat → Nat → Nat → Bool → Nat →
    Nat × Nat × Nat × SortState α
  | 0, s, _, buf, xs, _, ys, _, _ => (buf, xs, ys, s)
  | fuel + 1, s, imit, buf, xs, lbby, ys, xs_origin, num_remained =>
    let num_remained := num_remained - 1
    let ys_last := iadd rev ys (if num_remained ≠ 0 then p.block_len else p.last_block_len)
    let (ys_origin_left, imit, s) :=
      if num_remained ≠ 0 then
        let (c, s) := icomp cmp rev true s imit mid_key
        (c, iinc rev imit, s)
      else (false, imit, s)
    let ys_origin := ¬ys_origin_left
    if ys_origin = xs_origin then
      if num_remained ≠ 0 then
        MABLoop has_buf rev cmp p mid_key fuel s imit buf xs ys ys_last xs_origin num_remained
      else (buf, xs, ys_last, s)
    else
      let (buf, xs, ys, xs_origin, s) :=
        if xs ≠ lbby then
          if has_buf then
            if num_remained ≠ 0 then
              let (buf, xs, s) := MABSkip rev (isub rev lbby xs + 1) s buf xs (iinc rev lbby)
              (buf, xs, ys, xs_origin, s)
            else (buf, xs, ys, xs_origin, s)
          else
            if num_remained ≠ 0 then (buf, iinc rev lbby, ys, xs_origin, s)
            else if p.last_block_len < isub rev ys xs then
              let s := Rotate rev s xs ys ys_last
              (buf, xs, iadd rev xs p.last_block_len, true, s)
            else (buf, xs, ys, xs_origin, s)
        else (buf, xs, ys, xs_origin, s)
      let (mr, buf, s) :=
        if has_buf then MergeWithBuf xs_origin rev cmp buf xs ys ys_last s
        else
          let (mr, s) := MergeWithoutBuf xs_origin rev cmp xs ys ys_last s
          (mr, buf, s)
      let xs := mr.rest
      let xs_origin := xor xs_origin mr.xs_consumed
      if num_remained ≠ 0 then
        MABLoop has_buf rev cmp p mid_key fuel s imit buf xs xs ys_last xs_origin num_remained
      else (buf, xs, ys_last, s)

/-- `MergeAdjacentBlocks<has_buf>`: walk the interleaved blocks left to right,
merging runs of opposite origins; returns the updated buffer iterator. -/
def MergeAdjacentBlocks (has_buf rev : Bool) (cmp : α → α → Bool) (imit buf blocks : Nat)
    (p : BlockingParam) (mid_key : Nat) (s : SortState α) : Nat × SortState α :=
  let xs := blocks
  let ys := iadd rev xs p.first_block_len
  let (buf, xs, ys, s) :=
    MABLoop has_buf rev cmp p mid_key p.num_blocks s imit buf xs xs ys false
      (p.num_blocks - 1)
  if has_buf then MABFinal rev (isub rev ys xs + 1) s buf xs ys else (buf, s)

/-- `MergeBlocking<has_buf>`: interleave interior blocks, merge them, then
restore the imitation keys; returns the updated buffer iterator. -/
def MergeBlocking (has_buf rev : Bool) (cmp : α → α → Bool) (imit buf blocks : Nat)
    (p : BlockingParam) (s : SortState α) : Nat × SortState α :=
  let imit_len := p.num_blocks - 2
  let (mid_key, s) :=
    InterleaveBlocks rev cmp imit (iadd rev blocks p.first_block_len) imit_len p.block_len s
  let (buf, s) := MergeAdjacentBlocks has_buf rev cmp imit buf blocks p mid_key s
  let s :=
    if has_buf then DeinterleaveImitationBuf rev cmp imit imit_len buf mid_key s
    else DeinterleaveImitationInplace rev cmp imit imit_len mid_key s
  (buf, s)

/-- Pair-walking loop of `MergeOneLevel`.  In the backward case the source
wraps the iterators in `ReversedIterator` (bases `imit + num_blocks - 2`,
`buf`, `data`) and runs the same code, which here is the `rev := true`
instantiation of `MergeBlocking`. -/
def MergeOneLevelLoop (has_buf forward : Bool) (cmp : α → α → Bool)
    (imit seq_len residual_len : Nat) (p : BlockingParam) :
    Nat → SortState α → Nat → Nat → SequenceDivider → SortState α
  | 0, s, _, _, _ => s
  | fuel + 1, s, buf, data, sd =>
    let (lseq_decr, sd) := sd.next forward
    let (rseq_decr, sd) := sd.next forward
    let ld := if lseq_decr then 1 else 0
    let rd := if rseq_decr then 1 else 0
    let merging_len := (seq_len - ld) + (seq_len - rd)
    let p :=
      { p with first_block_len := residual_len - ld, last_block_len := residual_len - rd }
    let (buf, data, s) :=
      if forward then
        let (buf, s) := MergeBlocking has_buf false cmp imit buf data p s
        (buf, data + merging_len, s)
      else
        let (buf, s) :=
          MergeBlocking has_buf true cmp (imit + (p.num_blocks - 2)) buf data p s
        (buf, data - merging_len, s)
    if ¬sd.isEnd then
      MergeOneLevelLoop has_buf forward cmp imit seq_len residual_len p fuel s buf data sd
    else s

/-- `MergeOneLevel<has_buf, forward>`: merge every adjacent pair of runs of the
current level. -/
def MergeOneLevel (has_buf forward : Bool) (cmp : α → α → Bool) (imit buf data seq_len : Nat)
    (sd : SequenceDivider) (p : BlockingParam) (s : SortState α) : SortState α :=
  MergeOneLevelLoop has_buf forward cmp imit seq_len p.first_block_len p (sd.num_seqs + 1)
    s buf data sd

/-- One compare-and-swap pass of `OddEvenSort` (`j` stepping by 2 below `len - 1`). -/
def OddEvenPass (cmp : α → α → Bool) (data len : Nat) : Nat → SortState α → Nat → SortState α
  | 0, s, _ => s
  | fuel + 1, s, j =>
    if j < len - 1 then
      let (c, s) := icomp cmp false true s (data + (j + 1)) (data + j)
      let s := if c then iswap s (data + j) (data + (j + 1)) else s
      OddEvenPass cmp data len fuel s (j + 2)
    else s

/-- Pass recursion of `OddEvenSort<len>` (template index `i` running to `len`). -/
def OddEvenSortAux (cmp : α → α → Bool) (data len : Nat) : Nat → SortState α → Nat → SortState α
  | 0, s, _ => s
  | fuel + 1, s, i =>
    if i < len then
      OddEvenSortAux cmp data len fuel (OddEvenPass cmp data len len s (i % 2)) (i + 1)
    else s

/-- `OddEvenSort<len>(data)`: stable odd-even transposition sort. -/
def OddEvenSort (cmp : α → α → Bool) (len data : Nat) (s : SortState α) : SortState α :=
  OddEvenSortAux cmp data len len s 0

/-- Threaded-code dispatcher loop of `SortLeaves`: runs the switch case for the
current length, then either re-enters a case or falls through to the next one,
exactly following the source's decision chains. -/
def SortLeavesLoop (cmp : α → α → Bool) (seq_len : Nat) :
    Nat → SortState α → Nat → Nat → SequenceDivider → SortState α
  | 0, s, _, _, _ => s
  | fuel + 1, s, c, data, sd =>
    let s := OddEvenSort cmp c data s
    let data := data + c
    if sd.isEnd then s
    else
      let (decr, sd) := sd.next true
      let len := seq_len - (if decr then 1 else 0)
      let c' :=
        match c with
        | 4 => if len = 4 then 4 else 5
        | 5 => if len = 4 then 4 else if len = 5 then 5 else 6
        | 6 => if len = 5 then 5 else if len = 6 then 6 else 7
        | 7 => if len = 6 then 6 else if len = 7 then 7 else 8
        | _ => if len = 7 then 7 else 8
      SortLeavesLoop cmp seq_len fuel s c' data sd

/-- `SortLeaves(data, seq_len, seq_div)`: sort every leaf run (lengths 4 to 8). -/
def SortLeaves (cmp : α → α → Bool) (data seq_len : Nat) (sd : SequenceDivider)
    (s : SortState α) : SortState α :=
  let (decr, sd) := sd.next true
  let len := seq_len - (if decr then 1 else 0)
  SortLeavesLoop cmp seq_len (sd.num_seqs + 1) s len data sd

/-- `Sort0To8(data, len)`: closed-form sort for `len <= 3`, leaf sort beyond. -/
def Sort0To8 (cmp : α → α → Bool) (data len : Nat) (s : SortState α) : SortState α :=
  if len ≤ 1 then s
  else if len ≤ 3 then
    let (c, s) := icomp cmp false true s (data + 1) data
    let s := if c then iswap s data (data + 1) else s
    if len = 2 then s
    else
      let (c, s) := icomp cmp false true s (data + 2) (data + 1)
      let s := if c then iswap s (data + 1) (data + 2) else s
      let (c, s) := icomp cmp false true s (data + 1) data
      if c then iswap s data (data + 1) else s
  else SortLeaves cmp data len (SequenceDivider.make true len 0) s

/-- Sift-down descent of `HeapSort`: `while (cur < parent(len))` pick the larger child. -/
def HSDescend (cmp : α → α → Bool) (data len : Nat) :
    Nat → SortState α → Nat → Nat × SortState α
  | 0, s, cur => (cur, s)
  | fuel + 1, s, cur =>
    if cur < (len - 1) / 2 then
      let (c, s) := icomp cmp false true s (data + (2 * cur + 1)) (data + (2 * cur + 2))
      HSDescend cmp data len fuel s (if c then 2 * cur + 2 else 2 * cur + 1)
    else (cur, s)

/-- Climb of `HeapSort`: `while (comp(data + cur, data + start)) cur = parent(cur)`. -/
def HSClimbCmp (cmp : α → α → Bool) (data start : Nat) :
    Nat → SortState α → Nat → Nat × SortState α
  | 0, s, cur => (cur, s)
  | fuel + 1, s, cur =>
    let (c, s) := icomp cmp false true s (data + cur) (data + start)
    if c then HSClimbCmp cmp data start fuel s ((cur - 1) / 2) else (cur, s)

/-- Swap climb of `HeapSort`: `while (cur > start) { swap; cur = parent(cur); }`. -/
def HSClimbSwap (data start : Nat) : Nat → SortState α → Nat → SortState α
  | 0, s, _ => s
  | fuel + 1, s, cur =>
    if start < cur then
      HSClimbSwap data start fuel (iswap s (data + cur) (data + start)) ((cur - 1) / 2)
    else s

/-- Outer loop of `HeapSort`: heap construction followed by pop phase. -/
def HeapSortLoop (cmp : α → α → Bool) (data : Nat) :
    Nat → SortState α → Nat → Nat → SortState α
  | 0, s, _, _ => s
  | fuel + 1, s, start, len =>
    let (cur, s) := HSDescend cmp data len (len + 1) s start
    let cur := if cur < len / 2 then 2 * cur + 1 else cur
    let (cur, s) := HSClimbCmp cmp data start (len + 1) s cur
    let s := HSClimbSwap data start (len + 1) s cur
    if start ≠ 0 then HeapSortLoop cmp data fuel s (start - 1) len
    else
      let len := len - 1
      if len = 0 then s
      else HeapSortLoop cmp data fuel (iswap s data (data + len)) 0 len

/-- `HeapSort(data, len)` (precondition `len >= 2`): bottom-up heapsort used to
re-sort the retired merge buffer. -/
def HeapSort (cmp : α → α → Bool) (data len : Nat) (s : SortState α) : SortState α :=
  HeapSortLoop cmp data (len / 2 + len + 1) s (len / 2 - 1) len

/-- Insertion loop of `CollectKeys`: `for (tmp = cur; tmp > inspos; --tmp) swap`. -/
def CKInsert : Nat → SortState α → Nat → Nat → SortState α
  | 0, s, _, _ => s
  | fuel + 1, s, tmp, inspos =>
    if inspos < tmp then CKInsert fuel (iswap s tmp (tmp - 1)) (tmp - 1) inspos else s

/-- Scanning loop of `CollectKeys`. -/
def CKLoop (cmp : α → α → Bool) (last : Nat) :
    Nat → SortState α → Nat → Nat → Nat → Nat → Nat × Nat × SortState α
  | 0, s, keys, keys_last, _, _ => (keys, keys_last, s)
  | fuel + 1, s, keys, keys_last, cur, ndk =>
    let (inspos, s) := BinarySearch true false cmp keys keys_last cur s
    let (cond, s) :=
      if inspos = keys_last then (true, s)
      else icomp cmp false true s cur inspos
    let (keys, keys_last, ndk, s) :=
      if cond then
        let (keys, inspos, s) :=
          if cur - keys_last ≠ 0 then
            let s := Rotate false s keys keys_last cur
            (keys + (cur - keys_last), inspos + (cur - keys_last), s)
          else (keys, inspos, s)
        let s := CKInsert (cur + 1) s cur inspos
        (keys, cur + 1, ndk - 1, s)
      else (keys, keys_last, ndk, s)
    if ndk ≠ 0 ∧ cur + 1 < last then CKLoop cmp last fuel s keys keys_last (cur + 1) ndk
    else (keys, keys_last, s)

/-- `CollectKeys(first, last, num_desired_keys)`: gather distinct keys into a
sorted block rotated to the front; returns how many were found. -/
def CollectKeys (cmp : α → α → Bool) (first last num_desired_keys : Nat) (s : SortState α) :
    Nat × SortState α :=
  let (keys, keys_last, s) :=
    CKLoop cmp last (last - first + 1) s first (first + 1) (first + 1)
      (num_desired_keys - 1)
  let s := if keys - first ≠ 0 then Rotate false s first keys keys_last else s
  (keys_last - keys, s)

/-- Buffer repositioning in `Sort` after a backward level retired the buffer:
`do iter_swap(--back_data, --back_buf); while (back_data != buf)`. -/
def SortSwapBack : Nat → SortState α → Nat → Nat → Nat → SortState α
  | 0, s, _, _, _ => s
  | fuel + 1, s, back_data, back_buf, buf =>
    let back_data := back_data - 1
    let back_buf := back_buf - 1
    let s := iswap s back_data back_buf
    if back_data ≠ buf then SortSwapBack fuel s back_data back_buf buf else s

/-- Merge-level loop of `Sort`, including buffer retirement (swap the buffer
back next to the data if the direction was backward, then `HeapSort` it). -/
def SortLoop (cmp : α → α → Bool) (first last imit data : Nat) :
    Nat → SortState α → MergeSortControl → SortState α
  | 0, s, _ => s
  | fuel + 1, s, ctrl =>
    let p := DetermineBlocking ctrl
    let s :=
      if ctrl.buf_len = 0 then
        MergeOneLevel false true cmp imit (imit + ctrl.imit_len) data ctrl.seq_len
          (SequenceDivider.make true ctrl.data_len ctrl.log2_num_seqs) p s
      else if ctrl.forward then
        MergeOneLevel true true cmp imit (imit + ctrl.imit_len) data ctrl.seq_len
          (SequenceDivider.make true ctrl.data_len ctrl.log2_num_seqs) p s
      else
        MergeOneLevel true false cmp imit last (last - ctrl.buf_len) ctrl.seq_len
          (SequenceDivider.make false ctrl.data_len ctrl.log2_num_seqs) p s
    let (old_buf_len, ctrl) := ctrl.next
    let (ctrl, s) :=
      if old_buf_len ≠ 0 then
        let buf := data - old_buf_len
        let (ctrl, s) :=
          if ¬ctrl.forward then
            ({ ctrl with forward := true },
              SortSwapBack (ctrl.data_len + 1) s (last - old_buf_len) last buf)
          else (ctrl, s)
        (ctrl, HeapSort cmp buf old_buf_len s)
      else (ctrl, s)
    if ctrl.log2_num_seqs ≠ 0 then SortLoop cmp first last imit data fuel s ctrl else s

/-- `Sort(first, last)`: the full driver (`Sort` itself is not a legal Lean name). -/
def SortDriver (cmp : α → α → Bool) (first last : Nat) (s : SortState α) : Nat × SortState α :=
  let len := last - first
  if len ≤ 8 then (last, Sort0To8 cmp first len s)
  else
    let imit := first
    let (num_keys, imit, len, s) :=
      if 16 < len then
        let num_desired_keys := sortNumDesiredKeys len
        let (num_keys, s) := CollectKeys cmp first last num_desired_keys s
        if num_keys < 8 then (0, imit + num_keys, len - num_keys, s)
        else (num_keys, imit, len, s)
      else (0, imit, len, s)
    let data_len := len - num_keys
    let ctrl := MergeSortControl.make num_keys data_len
    let data := imit + num_keys
    let s :=
      SortLeaves cmp data ctrl.seq_len
        (SequenceDivider.make true ctrl.data_len ctrl.log2_num_seqs) s
    let s := SortLoop cmp first last imit data (ctrl.log2_num_seqs + 1) s ctrl
    let s := if first ≠ data then (MergeWithoutBuf false false cmp first data last s).2 else s
    (last, s)

/-- The public `sort(first, last, comp)` on a whole list: returns the `last`
iterator together with the final state (initial counters zero). -/
def sortL (cmp : α → α → Bool) (l : List α) : Nat × SortState α :=
  SortDriver cmp 0 l.length { arr := l, comps := 0, swaps := 0 }

/-- The flags returned by `k` successive `Next()` calls on a sequence divider. -/
def SDSteps (forward : Bool) : Nat → SequenceDivider → List Bool
  | 0, _ => []
  | k + 1, sd =>
    let (b, sd) := sd.next forward
    b :: SDSteps forward k sd

/-- The sequence divider state after `k` successive `Next()` calls. -/
def SDIter (forward : Bool) : Nat → SequenceDivider → SequenceDivider
  | 0, sd => sd
  | k + 1, sd => SDIter forward k (sd.next forward).2

/-- Multiset of elements currently held by the working list. -/
def marr (s : SortState α) : Multiset α := (s.arr : Multiset α)

/-- Run lengths produced by the forward divider over its `num_seqs` calls,
computed as `seq_len - decrement` exactly as `MergeOneLevel` consumes them. -/
def SDRunLengths (data_len log2_num_seqs : Nat) : List Nat :=
  let seq_len := ((data_len - 1) >>> log2_num_seqs) + 1
  (SDSteps true (1 <<< log2_num_seqs)
      (SequenceDivider.make true data_len log2_num_seqs)).map
    (fun b => seq_len - if b then 1 else 0)

lemma OASLoop_base (fuel q n : Nat) (h : ¬8 ≤ q) : OverApproxSqrtLoop fuel q n = n := by
  cases fuel <;> simp [OverApproxSqrtLoop, h]

lemma OASLoop_bracket : ∀ fuel p n, p ≤ fuel → 8 ≤ p →
    ∃ k, OverApproxSqrtLoop fuel p n = n + k ∧ 1 ≤ k ∧
      2 ^ (2 * k + 1) ≤ p ∧ p < 2 ^ (2 * k + 3) := by
  intro fuel
  induction fuel with
  | zero => intro p n hpf hp; omega
  | succ fuel ih =>
    intro p n hpf hp
    rw [OverApproxSqrtLoop, if_pos hp]
    by_cases h4 : 8 ≤ p / 4
    · obtain ⟨k, hk, hk1, hlo, hhi⟩ := ih (p / 4) (n + 1) (by omega) h4
      refine ⟨k + 1, by omega, by omega, ?_, ?_⟩
      · have h1 : 2 ^ (2 * k + 1) * 4 ≤ p / 4 * 4 := Nat.mul_le_mul_right 4 hlo
        have h2 : p / 4 * 4 ≤ p := Nat.div_mul_le_self p 4
        have h3 : (2 : Nat) ^ (2 * (k + 1) + 1) = 2 ^ (2 * k + 1) * 4 := by
          rw [show 2 * (k + 1) + 1 = (2 * k + 1) + 2 by omega, pow_add]; norm_num
        omega
      · have h1 : p < (p / 4 + 1) * 4 := by omega
        have h2 : (p / 4 + 1) * 4 ≤ 2 ^ (2 * k + 3) * 4 := Nat.mul_le_mul_right 4 (by omega)
        have h3 : (2 : Nat) ^ (2 * (k + 1) + 3) = 2 ^ (2 * k + 3) * 4 := by
          rw [show 2 * (k + 1) + 3 = (2 * k + 3) + 2 by omega, pow_add]; norm_num
        omega
    · rw [OASLoop_base fuel _ _ h4]
      exact ⟨1, rfl, le_rfl, by norm_num; omega, by norm_num; omega⟩

lemma oas_eq (x : Nat) (hx : 8 ≤ x) :
    ∃ a, 2 ≤ a ∧ 2 * a * a ≤ x ∧ x < 8 * a * a ∧
      OverApproxSqrt x =
        ((a + (x - 1) / (4 * a) + 1) + (x - 1) / (a + (x - 1) / (4 * a) + 1)) / 2 + 1 := by
  obtain ⟨k, hk, hk1, hlo, hhi⟩ := OASLoop_bracket x x 1 le_rfl hx
  refine ⟨2 ^ k, ?_, ?_, ?_, ?_⟩
  · calc (2 : Nat) = 2 ^ 1 := by norm_num
      _ ≤ 2 ^ k := Nat.pow_le_pow_right (by norm_num) hk1
  · have : (2 : Nat) ^ (2 * k + 1) = 2 * 2 ^ k * 2 ^ k := by
      rw [show 2 * k + 1 = 1 + k + k by omega, pow_add, pow_add]; ring
    omega
  · have : (2 : Nat) ^ (2 * k + 3) = 8 * 2 ^ k * 2 ^ k := by
      rw [show 2 * k + 3 = 3 + k + k by omega, pow_add, pow_add]; ring
    omega
  · show (let n := OverApproxSqrtLoop x x 1
      let r0 := (1 <<< (n - 1)) + ((x - 1) >>> (n + 1)) + 1
      (r0 + (x - 1) / r0) / 2 + 1) = _
    simp only [hk]
    have e1 : (1 : Nat) <<< (1 + k - 1) = 2 ^ k := by
      rw [Nat.shiftLeft_eq, one_mul]; congr 1; omega
    have e2 : (x - 1) >>> (1 + k + 1) = (x - 1) / (4 * 2 ^ k) := by
      rw [Nat.shiftRight_eq_div_pow]; congr 1
      rw [show 1 + k + 1 = 2 + k by omega, pow_add]; norm_num
    rw [e1, e2]

lemma oas_core_lower (x a q1 r0 q2 m : ℤ)
    (ha : 2 ≤ a) (hx : 8 ≤ x)
    (hq1a : 4 * a * q1 < x) (hq1b : x ≤ 4 * a * q1 + 4 * a)
    (hr0 : r0 = a + q1 + 1) (hq1n : 0 ≤ q1)
    (hq2a : r0 * q2 < x) (hq2b : x ≤ r0 * q2 + r0) (hq2n : 0 ≤ q2)
    (hm : 2 * m ≤ r0 + q2) (hm2 : r0 + q2 < 2 * m + 2) :
    x ≤ (m + 1) * (m + 1) ∧ m + 1 ≤ r0 ∧ 2 * r0 * m ≤ r0 * r0 + x - 1 ∧ x ≤ r0 * r0 := by
  have hr0pos : 1 ≤ r0 := by omega
  have hsq : x ≤ r0 * r0 := by nlinarith [sq_nonneg (a - q1 - 1)]
  have hq2r0 : q2 ≤ r0 - 1 := by nlinarith
  refine ⟨?_, by omega, ?_, hsq⟩
  · nlinarith [sq_nonneg (r0 - q2 - 1)]
  · nlinarith

lemma oas_core_cd (x a q1 r0 : ℤ) (ha : 2 ≤ a) (hlo : 2 * a * a ≤ x) (hhi : x < 8 * a * a)
    (hq1a : 4 * a * q1 < x) (hr0 : r0 = a + q1 + 1) (hq1n : 0 ≤ q1) :
    16 * (r0 - 1) * (r0 - 1) ≤ 18 * x + 24 := by
  have hu : 4 * a * (r0 - 1) ≤ 4 * a * a + x - 1 := by nlinarith
  have hun : 0 ≤ 4 * a * (r0 - 1) :=
    mul_nonneg (by omega : (0 : ℤ) ≤ 4 * a) (by omega : (0 : ℤ) ≤ r0 - 1)
  have hv : (4 * a * a + x - 1) * (4 * a * a + x - 1) ≤ 18 * (a * a) * x + 8 * a * a + 2 * x - 1 := by
    nlinarith [mul_nonneg (by nlinarith : (0 : ℤ) ≤ x - 2 * a * a) (by nlinarith : (0 : ℤ) ≤ 8 * a * a - x)]
  have husq : 16 * (a * a) * ((r0 - 1) * (r0 - 1)) ≤ (4 * a * a + x - 1) * (4 * a * a + x - 1) := by
    nlinarith [mul_self_le_mul_self hun hu]
  have hfin : 16 * (a * a) * ((r0 - 1) * (r0 - 1)) ≤ (a * a) * (18 * x + 24) := by nlinarith
  have ha2 : (0 : ℤ) < a * a := by positivity
  nlinarith [le_of_mul_le_mul_left (by nlinarith : (a * a) * (16 * (r0 - 1) * (r0 - 1)) ≤ (a * a) * (18 * x + 24)) ha2]

lemma int_le_of_sq_le_sq (u v : ℤ) (hu : 0 ≤ u) (hv : 0 ≤ v) (h : u * u ≤ v * v) : u ≤ v := by
  by_contra hc
  push_neg at hc
  nlinarith

set_option maxHeartbeats 1000000 in
lemma oas_branchA (x s r0 r : ℤ) (hx : 8 ≤ x)
    (hs1 : s * s ≤ x) (hs2 : x < (s + 1) * (s + 1)) (hs0 : 2 ≤ s) (hsu : s ≤ 500)
    (hr0sq : x ≤ r0 * r0) (hr0pos : 1 ≤ r0)
    (hCD : 16 * (r0 - 1) * (r0 - 1) ≤ 18 * x + 24)
    (hE1 : 2 * r0 * (r - 1) ≤ r0 * r0 + x - 1) (hr2 : 2 ≤ r) :
    (r - 2) * (r - 2) < x := by
  have hE2 : 2 * r0 * (r - 2) ≤ (r0 - 1) * (r0 - 1) + x - 2 := by nlinarith
  have hrn : 0 ≤ r - 2 := by omega
  by_cases hD : r0 ≤ s + 1
  · have h2 : (r - 2) * r0 ≤ x - 1 := by nlinarith
    by_contra hc
    push_neg at hc
    nlinarith [mul_self_le_mul_self (mul_nonneg hrn (by omega : (0 : ℤ) ≤ r0)) h2,
      mul_le_mul_of_nonneg_right hc (mul_nonneg (by omega : (0 : ℤ) ≤ r0) (by omega : (0 : ℤ) ≤ r0))]
  · push_neg at hD
    have hD1 : 1 ≤ r0 - 1 - s := by omega
    have hxs : x ≤ s * s + 2 * s := by nlinarith
    have hCD2 : 16 * (s + (r0 - 1 - s)) * (s + (r0 - 1 - s)) ≤
        18 * (s * s) + 36 * s + 24 := by nlinarith
    have hDsq : (r0 - 1 - s) * (r0 - 1 - s) ≤ 2 * s + 1 := by
      by_contra hc
      push_neg at hc
      have h1 : 32 * s * (r0 - 1 - s) ≤ 2 * (s * s) + 4 * s - 8 := by nlinarith
      have h1n : 0 ≤ 32 * s * (r0 - 1 - s) :=
        mul_nonneg (by positivity) (by omega)
      nlinarith [mul_self_le_mul_self h1n h1,
        mul_nonneg (mul_nonneg (mul_nonneg (by omega : (0 : ℤ) ≤ 500 - s)
          (by omega : (0 : ℤ) ≤ s)) (by omega : (0 : ℤ) ≤ s)) (by omega : (0 : ℤ) ≤ s),
        mul_le_mul_of_nonneg_left hc (by positivity : (0 : ℤ) ≤ 1024 * (s * s))]
    have key : (2 * s + 2) * ((r0 - 1) * (r0 - 1) + x - 2) <
        2 * r0 * (s * s + 2 * s + x) := by
      nlinarith [mul_le_mul_of_nonneg_left hDsq (by omega : (0 : ℤ) ≤ 2 * s + 2),
        mul_nonneg (by omega : (0 : ℤ) ≤ r0 - 1 - s) (by nlinarith : (0 : ℤ) ≤ x - s * s)]
    have h5 : (2 * s + 2) * (r - 2) ≤ s * s + 2 * s + x - 1 := by
      have h6 : (2 * s + 2) * (2 * r0 * (r - 2)) < (2 * r0) * (s * s + 2 * s + x) := by
        calc (2 * s + 2) * (2 * r0 * (r - 2)) ≤ (2 * s + 2) * ((r0 - 1) * (r0 - 1) + x - 2) :=
              by nlinarith
          _ < 2 * r0 * (s * s + 2 * s + x) := key
      have h7 : (2 * s + 2) * (r - 2) < s * s + 2 * s + x := by
        by_contra hc
        push_neg at hc
        nlinarith [mul_le_mul_of_nonneg_left hc (by omega : (0 : ℤ) ≤ 2 * r0)]
      omega
    have h8 : (s * s + 2 * s + x - 1) * (s * s + 2 * s + x - 1) <
        ((2 * s + 2) * (2 * s + 2)) * x := by nlinarith
    by_contra hc
    push_neg at hc
    nlinarith [mul_self_le_mul_self (mul_nonneg (by omega : (0 : ℤ) ≤ 2 * s + 2) hrn) h5,
      mul_le_mul_of_nonneg_left hc (by positivity : (0 : ℤ) ≤ (2 * s + 2) * (2 * s + 2))]

set_option maxHeartbeats 1000000 in
lemma oas_branchB (x r0 r : ℤ) (hxl : 250000 < x)
    (hr0sq : x ≤ r0 * r0) (hr0pos : 1 ≤ r0)
    (hCD : 16 * (r0 - 1) * (r0 - 1) ≤ 18 * x + 24)
    (hE1 : 2 * r0 * (r - 1) ≤ r0 * r0 + x - 1) (hr2 : 2 ≤ r) :
    65536 * (r * r) < 66049 * x := by
  have hr0b : 501 ≤ r0 := by nlinarith
  have hM : 2 * r0 * r ≤ r0 * r0 + 2 * r0 + x - 1 := by nlinarith
  have hMn : 0 ≤ 2 * r0 * r := by positivity
  have hF : 65536 * ((r0 * r0 + 2 * r0 + x - 1) * (r0 * r0 + 2 * r0 + x - 1)) <
      264196 * (r0 * r0) * x := by
    by_cases hbig : 532 ≤ r0
    · have hident : 324 * (264196 * (r0 * r0) * x -
          65536 * ((r0 * r0 + 2 * r0 + x - 1) * (r0 * r0 + 2 * r0 + x - 1))) =
          (328832 * r0 ^ 4 - 170002688 * r0 ^ 3 + 76774848 * r0 ^ 2 +
            13631488 * r0 - 44302336) +
          (18 * x - (16 * (r0 - 1) ^ 2 - 24)) *
            (264196 * 18 * (r0 * r0) -
              65536 * (36 * (r0 * r0) + 72 * r0 - 36 + 18 * x + (16 * (r0 - 1) ^ 2 - 24))) := by
        ring
      have hA : 0 ≤ 18 * x - (16 * (r0 - 1) ^ 2 - 24) := by nlinarith
      have hG : 0 ≤ 264196 * 18 * (r0 * r0) -
          65536 * (36 * (r0 * r0) + 72 * r0 - 36 + 18 * x + (16 * (r0 - 1) ^ 2 - 24)) := by
        nlinarith
      have hP : 0 < 328832 * r0 ^ 4 - 170002688 * r0 ^ 3 + 76774848 * r0 ^ 2 +
          13631488 * r0 - 44302336 := by
        have ht : 0 ≤ r0 - 518 := by omega
        have hPexp : 328832 * r0 ^ 4 - 170002688 * r0 ^ 3 + 76774848 * r0 ^ 2 +
            13631488 * r0 - 44302336 =
            66792868994816 + 46051997010176 * (r0 - 518) + 265293703104 * (r0 - 518) ^ 2 +
              511337216 * (r0 - 518) ^ 3 + 328832 * (r0 - 518) ^ 4 := by ring
        rw [hPexp]
        have h2 := mul_nonneg ht ht
        have h3 := mul_nonneg h2 ht
        have h4 := mul_nonneg h3 ht
        nlinarith [h2, h3, h4]
      nlinarith [mul_nonneg hA hG]
    · push_neg at hbig
      have hident : 264196 * (r0 * r0) * x -
          65536 * ((r0 * r0 + 2 * r0 + x - 1) * (r0 * r0 + 2 * r0 + x - 1)) =
          (-65536 * r0 ^ 4 - 262144 * r0 ^ 3 + 33281002052 * r0 ^ 2 -
            65536000000 * r0 - 4096000000000000) +
          (x - 250001) *
            (264196 * (r0 * r0) - 65536 * (2 * (r0 * r0) + 4 * r0 - 2 + x + 250001)) := by
        ring
      have hA : 0 ≤ x - 250001 := by omega
      have hG : 0 ≤ 264196 * (r0 * r0) -
          65536 * (2 * (r0 * r0) + 4 * r0 - 2 + x + 250001) := by nlinarith
      have hQ : 0 < -65536 * r0 ^ 4 - 262144 * r0 ^ 3 + 33281002052 * r0 ^ 2 -
          65536000000 * r0 - 4096000000000000 := by
        have ht : 0 ≤ r0 - 501 := by omega
        have ht30 : r0 - 501 ≤ 30 := by omega
        have hQexp : -65536 * r0 ^ 4 - 262144 * r0 ^ 3 + 33281002052 * r0 ^ 2 -
            65536000000 * r0 - 4096000000000000 =
            62899823438372 + 119631359528 * (r0 - 501) - 65810609596 * (r0 - 501) ^ 2 -
              131596288 * (r0 - 501) ^ 3 - 65536 * (r0 - 501) ^ 4 := by ring
        rw [hQexp]
        have h1 : 0 ≤ (30 - (r0 - 501)) * (r0 - 501) := mul_nonneg (by omega) ht
        have h2 : 0 ≤ (30 - (r0 - 501)) * ((r0 - 501) * (r0 - 501)) :=
          mul_nonneg (by omega) (mul_nonneg ht ht)
        have h3 : 0 ≤ (30 - (r0 - 501)) * ((r0 - 501) * (r0 - 501) * (r0 - 501)) :=
          mul_nonneg (by omega) (mul_nonneg (mul_nonneg ht ht) ht)
        nlinarith [h1, h2, h3]
      nlinarith [mul_nonneg hA hG]
  by_contra hc
  push_neg at hc
  nlinarith [mul_self_le_mul_self hMn hM,
    mul_le_mul_of_nonneg_left hc (by positivity : (0 : ℤ) ≤ r0 * r0)]

lemma oas_half (x r0 r : ℤ) (hx : 25 ≤ x)
    (hCD : 16 * (r0 - 1) * (r0 - 1) ≤ 18 * x + 24) (hrr0 : r ≤ r0) (hr0pos : 1 ≤ r0) :
    2 * r < x := by
  have h1 : (4 * (r0 - 1)) * (4 * (r0 - 1)) ≤ (x - 3) * (x - 3) := by nlinarith
  have h2 : 4 * (r0 - 1) ≤ x - 3 :=
    int_le_of_sq_le_sq _ _ (by nlinarith) (by omega) h1
  omega

lemma oas_125 (x r0 r : ℤ) (hx : 36 ≤ x)
    (hCD : 16 * (r0 - 1) * (r0 - 1) ≤ 18 * x + 24) (hrr0 : r ≤ r0) (hr0pos : 1 ≤ r0)
    (hrn : 0 ≤ r) :
    16 * (r * r) < 25 * x := by
  have h1 : (32 * (r0 - 1)) * (32 * (r0 - 1)) ≤ (7 * x - 41) * (7 * x - 41) := by nlinarith
  have h2 : 32 * (r0 - 1) ≤ 7 * x - 41 :=
    int_le_of_sq_le_sq _ _ (by nlinarith) (by nlinarith) h1
  have h3 : 16 * (r0 * r0) ≤ 25 * x - 1 := by nlinarith
  nlinarith [mul_self_le_mul_self hrn hrr0]

lemma oas_small : ∀ x : Nat, x < 50 → 8 ≤ x →
    (25 ≤ x ∨ 2 * OverApproxSqrt x < x) ∧
    (x = 8 → OverApproxSqrt x = 3) ∧ (9 ≤ x → x ≤ 16 → OverApproxSqrt x = 4) ∧
    (17 ≤ x → x < 36 → 16 * (OverApproxSqrt x * OverApproxSqrt x) < 25 * x) := by decide

lemma oas_main (x : Nat) (hx : 8 ≤ x) :
    x ≤ OverApproxSqrt x * OverApproxSqrt x ∧
    2 * OverApproxSqrt x < x ∧
    (16 < x → 16 * (OverApproxSqrt x * OverApproxSqrt x) < 25 * x) ∧
    ((OverApproxSqrt x - 2) * (OverApproxSqrt x - 2) < x ∨
      65536 * (OverApproxSqrt x * OverApproxSqrt x) < 66049 * x) := by
  obtain ⟨a, ha, hlo, hhi, heq⟩ := oas_eq x hx
  have ha0 : 0 < 4 * a := by omega
  obtain ⟨y, hy⟩ : ∃ y, x = y + 1 := ⟨x - 1, by omega⟩
  have hxy : x - 1 = y := by omega
  rw [hxy] at heq
  obtain ⟨q1, hq1⟩ : ∃ q1, y / (4 * a) = q1 := ⟨_, rfl⟩
  have hq1a : 4 * a * q1 ≤ y := by
    rw [← hq1]; exact Nat.mul_div_le y (4 * a)
  have hq1b : y < 4 * a * q1 + 4 * a := by
    have h1 := Nat.div_add_mod y (4 * a)
    have h2 := Nat.mod_lt y ha0
    rw [hq1] at h1
    linarith
  obtain ⟨r0, hr0⟩ : ∃ r0, r0 = a + q1 + 1 := ⟨_, rfl⟩
  have hr0p : 0 < r0 := by omega
  obtain ⟨q2, hq2⟩ : ∃ q2, y / r0 = q2 := ⟨_, rfl⟩
  have hq2a : r0 * q2 ≤ y := by
    rw [← hq2]; exact Nat.mul_div_le y r0
  have hq2b : y < r0 * q2 + r0 := by
    have h1 := Nat.div_add_mod y r0
    have h2 := Nat.mod_lt y hr0p
    rw [hq2] at h1
    linarith
  obtain ⟨m, hmdef⟩ : ∃ m, (r0 + q2) / 2 = m := ⟨_, rfl⟩
  have hm1 : 2 * m ≤ r0 + q2 := by
    rw [← hmdef]; exact Nat.mul_div_le (r0 + q2) 2
  have hm2 : r0 + q2 < 2 * m + 2 := by omega
  have heqr : OverApproxSqrt x = m + 1 := by
    rw [heq, hq1, ← hr0, hq2, hmdef]
  have hZy : (x : ℤ) = (y : ℤ) + 1 := by exact_mod_cast hy
  have hcore := oas_core_lower (x : ℤ) a q1 r0 q2 m
    (by exact_mod_cast ha) (by exact_mod_cast hx)
    (by have : (4 * a * q1 : ℤ) ≤ y := by exact_mod_cast hq1a
        push_cast; linarith)
    (by have : (y : ℤ) < 4 * a * q1 + 4 * a := by exact_mod_cast hq1b
        push_cast; linarith)
    (by push_cast [hr0]; ring) (by positivity)
    (by have : (r0 * q2 : ℤ) ≤ y := by exact_mod_cast hq2a
        push_cast; linarith)
    (by have : (y : ℤ) < r0 * q2 + r0 := by exact_mod_cast hq2b
        push_cast; linarith)
    (by positivity)
    (by exact_mod_cast hm1) (by exact_mod_cast hm2)
  obtain ⟨hZsq, hZrr0, hZE1raw, hZr0sq⟩ := hcore
  have hZE1 : 2 * (r0 : ℤ) * ((m + 1) - 1) ≤ r0 * r0 + x - 1 := by push_cast; linarith
  have hCD := oas_core_cd (x : ℤ) a q1 r0
    (by exact_mod_cast ha) (by push_cast; exact_mod_cast hlo) (by exact_mod_cast hhi)
    (by have : (4 * a * q1 : ℤ) ≤ y := by exact_mod_cast hq1a
        push_cast; linarith)
    (by push_cast [hr0]; ring) (by positivity)
  have hsq : x ≤ OverApproxSqrt x * OverApproxSqrt x := by
    rw [heqr]; exact_mod_cast hZsq
  have hr3 : 3 ≤ OverApproxSqrt x := by
    by_contra hc
    push_neg at hc
    interval_cases h : OverApproxSqrt x <;> omega
  have hrr0 : (OverApproxSqrt x : ℤ) ≤ r0 := by rw [heqr]; exact_mod_cast hZrr0
  have hE1 : 2 * (r0 : ℤ) * ((OverApproxSqrt x : ℤ) - 1) ≤ r0 * r0 + x - 1 := by
    rw [heqr]; push_cast; push_cast at hZE1; linarith
  refine ⟨hsq, ?_, ?_, ?_⟩
  · by_cases h25 : 25 ≤ x
    · have := oas_half (x : ℤ) r0 (OverApproxSqrt x) (by exact_mod_cast h25) hCD hrr0
        (by exact_mod_cast hr0p)
      exact_mod_cast this
    · rcases (oas_small x (by omega) hx).1 with h | h
      · omega
      · exact h
  · intro h16
    by_cases h36 : 36 ≤ x
    · have := oas_125 (x : ℤ) r0 (OverApproxSqrt x) (by exact_mod_cast h36) hCD hrr0
        (by exact_mod_cast hr0p) (by positivity)
      exact_mod_cast this
    · exact (oas_small x (by omega) hx).2.2.2 (by omega) (by omega)
  · by_cases hsplit : x ≤ 250000
    · left
      have hs1 : Nat.sqrt x * Nat.sqrt x ≤ x := Nat.sqrt_le x
      have hs2 : x < (Nat.sqrt x + 1) * (Nat.sqrt x + 1) := Nat.lt_succ_sqrt x
      have hs0 : 2 ≤ Nat.sqrt x := by
        by_contra hc
        push_neg at hc
        interval_cases h : Nat.sqrt x <;> omega
      have hsu : Nat.sqrt x ≤ 500 := by
        by_contra hc
        push_neg at hc
        have : 501 * 501 ≤ Nat.sqrt x * Nat.sqrt x := Nat.mul_le_mul hc hc
        omega
      have := oas_branchA (x : ℤ) (Nat.sqrt x) r0 (OverApproxSqrt x)
        (by exact_mod_cast hx) (by exact_mod_cast hs1) (by exact_mod_cast hs2)
        (by exact_mod_cast hs0) (by exact_mod_cast hsu) hZr0sq (by exact_mod_cast hr0p)
        hCD hE1 (by exact_mod_cast (by omega : 2 ≤ OverApproxSqrt x))
      have hcast : ((OverApproxSqrt x - 2 : Nat) : ℤ) = (OverApproxSqrt x : ℤ) - 2 := by
        push_cast [Nat.cast_sub (by omega : 2 ≤ OverApproxSqrt x)]; ring
      zify [hcast]
      exact_mod_cast this
    · right
      have := oas_branchB (x : ℤ) r0 (OverApproxSqrt x) (by exact_mod_cast (by omega : 250000 < x))
        hZr0sq (by exact_mod_cast hr0p) hCD hE1
        (by exact_mod_cast (by omega : 2 ≤ OverApproxSqrt x))
      exact_mod_cast this

/-- Claim C6: for every integer `x >= 8`, `OverApproxSqrt x` returns `r` with
`sqrt x <= r < x / 2`; moreover `r = 3` at `x = 8`, `r = 4` for `9 <= x <= 16`,
`r < 1.25 * sqrt x` for `x > 16`, and `r < max (sqrt x + 2) (1.0039 * sqrt x)`
for every `x >= 8` — all stated in the claim's own integer-arithmetic
rendering: `r * r >= x`, `2 * r < x`, `(4 * r)^2 < 5^2 * x`, and
`(r - 2)^2 < x` or `(256 * r)^2 < 257^2 * x`. -/
theorem claim_C6 (x : Nat) (hx : 8 ≤ x) :
    x ≤ OverApproxSqrt x * OverApproxSqrt x ∧
    2 * OverApproxSqrt x < x ∧
    (x = 8 → OverApproxSqrt x = 3) ∧
    (9 ≤ x → x ≤ 16 → OverApproxSqrt x = 4) ∧
    (16 < x → (4 * OverApproxSqrt x) ^ 2 < 5 ^ 2 * x) ∧
    ((OverApproxSqrt x - 2) ^ 2 < x ∨ (256 * OverApproxSqrt x) ^ 2 < 257 ^ 2 * x) := by
  obtain ⟨h1, h2, h3, h4⟩ := oas_main x hx
  refine ⟨h1, h2, ?_, ?_, ?_, ?_⟩
  · intro h
    exact (oas_small x (by omega) hx).2.1 h
  · intro h9 h16
    exact (oas_small x (by omega) hx).2.2.1 h9 h16
  · intro h16
    have h := h3 h16
    have e : (4 * OverApproxSqrt x) ^ 2 = 16 * (OverApproxSqrt x * OverApproxSqrt x) := by ring
    have e2 : 5 ^ 2 * x = 25 * x := by ring
    omega
  · rcases h4 with h | h
    · left
      have e : (OverApproxSqrt x - 2) ^ 2 = (OverApproxSqrt x - 2) * (OverApproxSqrt x - 2) := by
        ring
      omega
    · right
      have e : (256 * OverApproxSqrt x) ^ 2 = 65536 * (OverApproxSqrt x * OverApproxSqrt x) := by
        ring
      have e2 : 257 ^ 2 * x = 66049 * x := by ring
      omega

/-- Concrete instantiation of `claim_C6` at `x = 100`. -/
theorem claim_C6_witness :
    8 ≤ 100 ∧
    (100 ≤ OverApproxSqrt 100 * OverApproxSqrt 100 ∧
      2 * OverApproxSqrt 100 < 100 ∧
      (100 = 8 → OverApproxSqrt 100 = 3) ∧
      (9 ≤ 100 → 100 ≤ 16 → OverApproxSqrt 100 = 4) ∧
      (16 < 100 → (4 * OverApproxSqrt 100) ^ 2 < 5 ^ 2 * 100) ∧
      ((OverApproxSqrt 100 - 2) ^ 2 < 100 ∨
        (256 * OverApproxSqrt 100) ^ 2 < 257 ^ 2 * 100)) :=
  ⟨by norm_num, claim_C6 100 (by norm_num)⟩

lemma ceilSqrt_le_of_sq (n r : Nat) (hn : 1 ≤ n) (h : n ≤ r * r) : ceilSqrt n ≤ r := by
  rw [ceilSqrt, if_neg (by omega)]
  have h1 : n - 1 < r * r := by omega
  have h2 : Nat.sqrt (n - 1) < r := by
    by_contra hc
    push_neg at hc
    have := Nat.sqrt_le (n - 1)
    nlinarith [Nat.mul_le_mul hc hc]
  omega

/-- Claim C5 counterexample: at `n = 25 > 16` the value `num_desired_keys`
computed by `Sort` is `2 * OverApproxSqrt 25 - 2 = 10`, not
`2 * ceil (sqrt 25) - 2 = 8`. -/
theorem claim_C5_counterexample :
    sortNumDesiredKeys 25 ≠ 2 * ceilSqrt 25 - 2 := by
  have h24 : Nat.sqrt 24 = 4 := by
    have := Nat.sqrt_add_eq 4 (show 8 ≤ 4 + 4 by norm_num)
    simpa using this
  have hc : ceilSqrt 25 = 5 := by rw [ceilSqrt]; norm_num [h24]
  have ho : sortNumDesiredKeys 25 = 10 := by decide
  omega

/-- Claim C5 (amended): for every `n > 16` the key-collection phase of `Sort`
searches for exactly `num_desired_keys = 2 * OverApproxSqrt n - 2` pairwise
distinct elements; this is at least `2 * ceil (sqrt n) - 2` (with equality
failing in general, e.g. at `n = 25`). -/
theorem claim_C5_amended (n : Nat) (h : 16 < n) :
    sortNumDesiredKeys n = 2 * OverApproxSqrt n - 2 ∧
    2 * ceilSqrt n - 2 ≤ sortNumDesiredKeys n := by
  refine ⟨rfl, ?_⟩
  have h1 := (oas_main n (by omega)).1
  have h2 := ceilSqrt_le_of_sq n (OverApproxSqrt n) (by omega) h1
  rw [sortNumDesiredKeys]
  omega

/-- Concrete instantiation of `claim_C5_amended` at `n = 25`. -/
theorem claim_C5_witness :
    16 < 25 ∧
    (sortNumDesiredKeys 25 = 2 * OverApproxSqrt 25 - 2 ∧
      2 * ceilSqrt 25 - 2 ≤ sortNumDesiredKeys 25) :=
  ⟨by norm_num, claim_C5_amended 25 (by norm_num)⟩

/-- Claim C4 counterexample: a controller state with `buf_len = 3` (odd),
`log2_num_seqs = 1`, taking the retirement branch of `Next()`: the call
returns the old `buf_len = 3`, but `imit_len` becomes `2 + 3 / 2 * 2 = 4`,
not `imit_len + buf_len = 5` as the claim states for odd `buf_len`. -/
theorem claim_C4_counterexample :
    (MergeSortControl.next
      { imit_len := 2, buf_len := 3, bufferable_len := 6, data_len := 20,
        log2_num_seqs := 1, seq_len := 10, forward := true }).1 = 3 ∧
    (MergeSortControl.next
      { imit_len := 2, buf_len := 3, bufferable_len := 6, data_len := 20,
        log2_num_seqs := 1, seq_len := 10, forward := true }).2.imit_len ≠ 2 + 3 := by
  decide

/-- Claim C4 (amended): for every controller state with `buf_len > 0`, a call
to `Next()` that finds `log2_num_seqs = 0` or `seq_len > bufferable_len`
(after the decrement and `seq_len` update) absorbs the buffer into the
imitation by `imit_len += buf_len / 2 * 2` (the full `buf_len` when it is
even, one less when odd), sets `buf_len` to 0, and returns the old
`buf_len`; every other call returns 0. -/
theorem claim_C4_amended (c : MergeSortControl) :
    (0 < c.buf_len →
      (c.log2_num_seqs - 1 = 0 ∨
        c.bufferable_len < ((c.data_len - 1) >>> (c.log2_num_seqs - 1)) + 1) →
      c.next.1 = c.buf_len ∧
      c.next.2.imit_len = c.imit_len + c.buf_len / 2 * 2 ∧
      c.next.2.buf_len = 0) ∧
    (c.buf_len = 0 →
      c.next.1 = 0) ∧
    (0 < c.buf_len →
      ¬(c.log2_num_seqs - 1 = 0 ∨
        c.bufferable_len < ((c.data_len - 1) >>> (c.log2_num_seqs - 1)) + 1) →
      c.next.1 = 0) := by
  refine ⟨?_, ?_, ?_⟩
  · intro hb hcond
    rw [MergeSortControl.next]
    simp only [if_neg (by omega : ¬c.buf_len = 0), if_pos hcond]
    exact ⟨trivial, trivial, trivial⟩
  · intro hb
    rw [MergeSortControl.next]
    simp only [if_pos hb]
  · intro hb hcond
    rw [MergeSortControl.next]
    simp only [if_neg (by omega : ¬c.buf_len = 0), if_neg hcond]

/-- Concrete instantiation of `claim_C4_amended` on an even-buffer retiring
state and on a non-retiring state. -/
theorem claim_C4_witness :
    (MergeSortControl.next
      { imit_len := 2, buf_len := 4, bufferable_len := 12, data_len := 20,
        log2_num_seqs := 1, seq_len := 10, forward := true }).1 = 4 ∧
    (MergeSortControl.next
      { imit_len := 2, buf_len := 4, bufferable_len := 12, data_len := 20,
        log2_num_seqs := 1, seq_len := 10, forward := true }).2.imit_len = 2 + 4 / 2 * 2 ∧
    (MergeSortControl.next
      { imit_len := 2, buf_len := 4, bufferable_len := 12, data_len := 20,
        log2_num_seqs := 3, seq_len := 3, forward := true }).1 = 0 := by
  refine ⟨?_, ?_, ?_⟩
  · exact ((claim_C4_amended _).1 (by decide) (by decide)).1
  · exact ((claim_C4_amended _).1 (by decide) (by decide)).2.1
  · exact (claim_C4_amended _).2.2 (by decide) (by decide)

lemma MSCLoop_go : ∀ fuel d l, 8 < d → 2 ^ (l + 2) ≤ d - 1 → d - 1 < 2 ^ (fuel + l + 3) →
    l ≤ MSCLoop fuel d l ∧ 2 ^ (MSCLoop fuel d l + 2) ≤ d - 1 ∧
      d - 1 < 2 ^ (MSCLoop fuel d l + 3) := by
  intro fuel
  induction fuel with
  | zero =>
    intro d l hd hlo hhi
    exact ⟨le_rfl, hlo, by simpa using hhi⟩
  | succ fuel ih =>
    intro d l hd hlo hhi
    rw [MSCLoop]
    by_cases h : (d - 1) >>> (l + 3) ≠ 0
    · rw [if_pos h]
      have hge : 2 ^ (l + 3) ≤ d - 1 := by
        rw [Nat.shiftRight_eq_div_pow] at h
        exact (Nat.div_pos_iff (by positivity : (2:Nat) ^ (l + 3) ≠ 0)).mp
          (Nat.pos_of_ne_zero h)
      have ⟨h1, h2, h3⟩ := ih d (l + 1) hd (by rw [show l + 1 + 2 = l + 3 from rfl]; exact hge)
        (by rw [show fuel + (l + 1) + 3 = fuel + 1 + l + 3 by omega]; exact hhi)
      exact ⟨by omega, h2, h3⟩
    · rw [if_neg h]
      push_neg at h
      rw [Nat.shiftRight_eq_div_pow] at h
      have := Nat.div_eq_zero_iff (by positivity : 0 < 2 ^ (l + 3)) |>.mp h
      exact ⟨le_rfl, hlo, this⟩

/-- Claim C7: construction of the merge-sort controller with `num_keys >= 8`
and `data_len > 8` establishes all claimed field equations and invariants:
`imit_len = ((num_keys+2)/4)*2 - 2` even and at least 2,
`buf_len = num_keys - imit_len` with `buf_len >= imit_len + 2`,
`bufferable_len = ((imit_len+2)/2)*buf_len >= 8`, `log2_num_seqs` the least
value `>= 1` with `(data_len-1) >> (log2_num_seqs+3) = 0`, and
`seq_len = ((data_len-1) >> log2_num_seqs) + 1` in `[5, 8]`. -/
theorem claim_C7 (num_keys data_len : Nat) (hk : 8 ≤ num_keys) (hd : 8 < data_len) :
    (MergeSortControl.make num_keys data_len).imit_len = (num_keys + 2) / 4 * 2 - 2 ∧
    Even (MergeSortControl.make num_keys data_len).imit_len ∧
    2 ≤ (MergeSortControl.make num_keys data_len).imit_len ∧
    (MergeSortControl.make num_keys data_len).buf_len =
      num_keys - (MergeSortControl.make num_keys data_len).imit_len ∧
    (MergeSortControl.make num_keys data_len).imit_len + 2 ≤
      (MergeSortControl.make num_keys data_len).buf_len ∧
    (MergeSortControl.make num_keys data_len).bufferable_len =
      ((MergeSortControl.make num_keys data_len).imit_len + 2) / 2 *
        (MergeSortControl.make num_keys data_len).buf_len ∧
    8 ≤ (MergeSortControl.make num_keys data_len).bufferable_len ∧
    1 ≤ (MergeSortControl.make num_keys data_len).log2_num_seqs ∧
    (data_len - 1) >>> ((MergeSortControl.make num_keys data_len).log2_num_seqs + 3) = 0 ∧
    (∀ m, 1 ≤ m → (data_len - 1) >>> (m + 3) = 0 →
      (MergeSortControl.make num_keys data_len).log2_num_seqs ≤ m) ∧
    (MergeSortControl.make num_keys data_len).seq_len =
      ((data_len - 1) >>> (MergeSortControl.make num_keys data_len).log2_num_seqs) + 1 ∧
    5 ≤ (MergeSortControl.make num_keys data_len).seq_len ∧
    (MergeSortControl.make num_keys data_len).seq_len ≤ 8 := by
  have hk0 : num_keys ≠ 0 := by omega
  have hfields :
      (MergeSortControl.make num_keys data_len).imit_len = (num_keys + 2) / 4 * 2 - 2 ∧
      (MergeSortControl.make num_keys data_len).buf_len =
        num_keys - ((num_keys + 2) / 4 * 2 - 2) ∧
      (MergeSortControl.make num_keys data_len).bufferable_len =
        (((num_keys + 2) / 4 * 2 - 2) + 2) / 2 * (num_keys - ((num_keys + 2) / 4 * 2 - 2)) ∧
      (MergeSortControl.make num_keys data_len).log2_num_seqs = MSCLoop data_len data_len 1 ∧
      (MergeSortControl.make num_keys data_len).seq_len =
        ((data_len - 1) >>> MSCLoop data_len data_len 1) + 1 := by
    rw [MergeSortControl.make]
    simp only [if_pos hk0]
    exact ⟨trivial, trivial, trivial, trivial, trivial⟩
  obtain ⟨hf1, hf2, hf3, hf4, hf5⟩ := hfields
  have hloop := MSCLoop_go data_len data_len 1 hd
    (by norm_num; omega)
    (by
      have h1 : data_len - 1 < 2 ^ (data_len - 1) := Nat.lt_two_pow (data_len - 1)
      have h2 : (2 : Nat) ^ (data_len - 1) ≤ 2 ^ (data_len + 1 + 3) :=
        Nat.pow_le_pow_right (by norm_num) (by omega)
      omega)
  obtain ⟨hl1, hl2, hl3⟩ := hloop
  have himit2 : 2 ≤ (num_keys + 2) / 4 * 2 - 2 := by omega
  have hbufge : ((num_keys + 2) / 4 * 2 - 2) + 2 ≤ num_keys - ((num_keys + 2) / 4 * 2 - 2) := by
    omega
  refine ⟨hf1, ?_, by omega, by omega, by omega, by rw [hf3, hf1, hf2], ?_, ?_, ?_, ?_, ?_, ?_, ?_⟩
  · rw [hf1]
    exact ⟨(num_keys + 2) / 4 - 1, by omega⟩
  · rw [hf3]
    have h1 : 2 ≤ (((num_keys + 2) / 4 * 2 - 2) + 2) / 2 := by omega
    have h2 : 4 ≤ num_keys - ((num_keys + 2) / 4 * 2 - 2) := by omega
    calc (8 : Nat) = 2 * 4 := by norm_num
      _ ≤ (((num_keys + 2) / 4 * 2 - 2) + 2) / 2 * (num_keys - ((num_keys + 2) / 4 * 2 - 2)) :=
        Nat.mul_le_mul h1 h2
  · omega
  · rw [hf4, Nat.shiftRight_eq_div_pow]
    exact Nat.div_eq_of_lt hl3
  · intro m hm hme
    rw [hf4]
    rw [Nat.shiftRight_eq_div_pow] at hme
    have hlt := (Nat.div_eq_zero_iff (by positivity : 0 < 2 ^ (m + 3))).mp hme
    by_contra hc
    push_neg at hc
    have : 2 ^ (m + 3) ≤ 2 ^ (MSCLoop data_len data_len 1 + 2) :=
      Nat.pow_le_pow_right (by norm_num) (by omega)
    omega
  · rw [hf5, hf4]
  · rw [hf5, Nat.shiftRight_eq_div_pow]
    have h4 : 2 ^ (MSCLoop data_len data_len 1 + 2) / 2 ^ MSCLoop data_len data_len 1 ≤
        (data_len - 1) / 2 ^ MSCLoop data_len data_len 1 :=
      Nat.div_le_div_right hl2
    rw [Nat.pow_div (by omega) (by norm_num)] at h4
    norm_num at h4
    omega
  · rw [hf5, Nat.shiftRight_eq_div_pow]
    have h4 : (data_len - 1) / 2 ^ MSCLoop data_len data_len 1 < 8 := by
      rw [Nat.div_lt_iff_lt_mul (by positivity)]
      calc data_len - 1 < 2 ^ (MSCLoop data_len data_len 1 + 3) := hl3
        _ = 8 * 2 ^ MSCLoop data_len data_len 1 := by rw [pow_add]; ring

    omega

/-- Concrete instantiation of `claim_C7` at `num_keys = 10`, `data_len = 100`. -/
theorem claim_C7_witness :
    8 ≤ 10 ∧ 8 < 100 ∧
    ((MergeSortControl.make 10 100).imit_len = (10 + 2) / 4 * 2 - 2 ∧
      Even (MergeSortControl.make 10 100).imit_len ∧
      2 ≤ (MergeSortControl.make 10 100).imit_len ∧
      (MergeSortControl.make 10 100).buf_len = 10 - (MergeSortControl.make 10 100).imit_len ∧
      (MergeSortControl.make 10 100).imit_len + 2 ≤ (MergeSortControl.make 10 100).buf_len ∧
      (MergeSortControl.make 10 100).bufferable_len =
        ((MergeSortControl.make 10 100).imit_len + 2) / 2 *
          (MergeSortControl.make 10 100).buf_len ∧
      8 ≤ (MergeSortControl.make 10 100).bufferable_len ∧
      1 ≤ (MergeSortControl.make 10 100).log2_num_seqs ∧
      (100 - 1) >>> ((MergeSortControl.make 10 100).log2_num_seqs + 3) = 0 ∧
      (∀ m, 1 ≤ m → (100 - 1) >>> (m + 3) = 0 →
        (MergeSortControl.make 10 100).log2_num_seqs ≤ m) ∧
      (MergeSortControl.make 10 100).seq_len =
        ((100 - 1) >>> (MergeSortControl.make 10 100).log2_num_seqs) + 1 ∧
      5 ≤ (MergeSortControl.make 10 100).seq_len ∧
      (MergeSortControl.make 10 100).seq_len ≤ 8) :=
  ⟨by norm_num, by norm_num, claim_C7 10 100 (by norm_num) (by norm_num)⟩

lemma and_pow_two_small (l f : Nat) (hf : f < 2 ^ (l + 1)) :
    f &&& 2 ^ l = if f < 2 ^ l then 0 else 2 ^ l := by
  have hpos : 0 < 2 ^ l := Nat.pos_pow_of_pos l (by norm_num)
  have hdiv : f / 2 ^ l < 2 := by
    rw [Nat.div_lt_iff_lt_mul hpos]
    calc f < 2 ^ (l + 1) := hf
      _ = 2 * 2 ^ l := by ring
  rw [Nat.and_two_pow, Nat.testBit_to_div_mod]
  by_cases hlt : f < 2 ^ l
  · have h0 : f / 2 ^ l = 0 := Nat.div_eq_of_lt hlt
    simp [hlt, h0]
  · have h1 : f / 2 ^ l = 1 := by
      have hp : 0 < f / 2 ^ l := Nat.div_pos (le_of_not_lt hlt) hpos
      omega
    simp [hlt, h1]

lemma next_mk (l n rem fc : Nat) (h2 : rem ≤ 2 ^ l) (hfc : fc < 2 ^ l) :
    SequenceDivider.next true ⟨l, n, rem, fc⟩ =
      (decide (fc + rem < 2 ^ l), ⟨l, n - 1, rem, (fc + rem) % 2 ^ l⟩) := by
  have hpos : 0 < 2 ^ l := Nat.pos_pow_of_pos l (by norm_num)
  have hflt : fc + rem < 2 ^ (l + 1) := by
    have hh : (2 : Nat) ^ (l + 1) = 2 ^ l + 2 ^ l := by ring
    omega
  by_cases hc : fc + rem < 2 ^ l
  · have hand : fc + rem &&& 2 ^ l = 0 := by
      rw [and_pow_two_small l _ hflt, if_pos hc]
    simp [SequenceDivider.next, Nat.one_shiftLeft, hand, hc, Nat.mod_eq_of_lt hc]
  · have hand : fc + rem &&& 2 ^ l = 2 ^ l := by
      rw [and_pow_two_small l _ hflt, if_neg hc]
    have hmod : (fc + rem) % 2 ^ l = fc + rem - 2 ^ l := by
      rw [Nat.mod_eq_sub_mod (le_of_not_lt hc)]
      exact Nat.mod_eq_of_lt (by omega)
    simp [SequenceDivider.next, Nat.one_shiftLeft, hand, hc, hmod, hpos.ne']

lemma SDIter_zero (f : Bool) (sd : SequenceDivider) : SDIter f 0 sd = sd := rfl

lemma SDIter_peel (f : Bool) (k : Nat) (sd : SequenceDivider) :
    SDIter f (k + 1) sd = SDIter f k (sd.next f).2 := rfl

lemma SDIter_succ (f : Bool) (k : Nat) : ∀ sd : SequenceDivider,
    SDIter f (k + 1) sd = ((SDIter f k sd).next f).2 := by
  induction k with
  | zero => intro sd; rfl
  | succ k ih =>
    intro sd
    show SDIter f (k + 1) (sd.next f).2 = ((SDIter f (k + 1) sd).next f).2
    rw [ih, SDIter_peel]

lemma SDSteps_succ (f : Bool) (k : Nat) (sd : SequenceDivider) :
    SDSteps f (k + 1) sd = (sd.next f).1 :: SDSteps f k (sd.next f).2 := rfl

lemma SDSteps_length (f : Bool) : ∀ (k : Nat) (sd : SequenceDivider),
    (SDSteps f k sd).length = k := by
  intro k
  induction k with
  | zero => intro sd; rfl
  | succ k ih =>
    intro sd
    rw [SDSteps_succ, List.length_cons, ih]

lemma SDSteps_getD (f : Bool) : ∀ (i k : Nat) (sd : SequenceDivider), i < k →
    (SDSteps f k sd).getD i false = ((SDIter f i sd).next f).1 := by
  intro i
  induction i with
  | zero =>
    intro k sd hk
    cases k with
    | zero => omega
    | succ k => rw [SDSteps_succ, List.getD_cons_zero, SDIter_zero]
  | succ i ih =>
    intro k sd hk
    cases k with
    | zero => omega
    | succ k =>
      rw [SDSteps_succ, List.getD_cons_succ, ih k (sd.next f).2 (by omega), SDIter_peel]

lemma SDIter_make (L l : Nat) : ∀ i : Nat,
    SDIter true i (SequenceDivider.make true L l) =
      ⟨l, 2 ^ l - i, (L - 1) % 2 ^ l + 1, i * ((L - 1) % 2 ^ l + 1) % 2 ^ l⟩ := by
  have hpos : 0 < 2 ^ l := Nat.pos_pow_of_pos l (by norm_num)
  have h2 : (L - 1) % 2 ^ l + 1 ≤ 2 ^ l := by
    have := Nat.mod_lt (L - 1) hpos
    omega
  intro i
  induction i with
  | zero =>
    show SequenceDivider.make true L l = _
    simp [SequenceDivider.make, Nat.one_shiftLeft]
  | succ i ih =>
    have hfc : i * ((L - 1) % 2 ^ l + 1) % 2 ^ l < 2 ^ l := Nat.mod_lt _ hpos
    rw [SDIter_succ, ih, next_mk l _ _ _ h2 hfc]
    simp only [SequenceDivider.mk.injEq]
    refine ⟨trivial, by omega, trivial, ?_⟩
    rw [Nat.mod_add_mod]
    congr 1
    ring

lemma sd_slice_core (N q rem i : Nat) (hN : 0 < N) (h1 : 1 ≤ rem) (h2 : rem ≤ N) :
    q + 1 - (if i * rem % N + rem < N then 1 else 0)
      = (i + 1) * (q * N + rem) / N - i * (q * N + rem) / N := by
  have hA : i * (q * N + rem) / N = i * rem / N + i * q := by
    have h3 : i * (q * N + rem) = i * rem + N * (i * q) := by ring
    rw [h3, Nat.add_mul_div_left _ _ hN]
  have hB : (i + 1) * (q * N + rem) / N = (i + 1) * rem / N + (i + 1) * q := by
    have h3 : (i + 1) * (q * N + rem) = (i + 1) * rem + N * ((i + 1) * q) := by ring
    rw [h3, Nat.add_mul_div_left _ _ hN]
  have hC : (i + 1) * rem / N
      = i * rem / N + (if i * rem % N + rem < N then 0 else 1) := by
    have h3 : (i + 1) * rem = N * (i * rem / N) + (i * rem % N + rem) := by
      calc (i + 1) * rem = i * rem + rem := by ring
        _ = N * (i * rem / N) + i * rem % N + rem := by rw [Nat.div_add_mod]
        _ = N * (i * rem / N) + (i * rem % N + rem) := by ring
    rw [h3, Nat.mul_add_div hN]
    by_cases hc : i * rem % N + rem < N
    · rw [if_pos hc, Nat.div_eq_of_lt hc]
    · have hub : i * rem % N < N := Nat.mod_lt _ hN
      have hd : (i * rem % N + rem) / N = 1 := by
        rw [Nat.div_eq_sub_div hN (le_of_not_lt hc), Nat.div_eq_of_lt (by omega)]
      rw [if_neg hc, hd]
  rw [hB, hA, hC]
  have hq1 : (i + 1) * q = i * q + q := by ring
  rw [hq1]
  generalize i * q = A
  generalize i * rem / N = D
  by_cases hc : i * rem % N + rem < N
  · simp only [if_pos hc]
    omega
  · simp only [if_neg hc]
    omega

lemma range_map_telescope (g : Nat → Nat) (hg : ∀ i, g i ≤ g (i + 1)) (hg0 : g 0 = 0) :
    ∀ n : Nat, ((List.range n).map (fun i => g (i + 1) - g i)).sum = g n := by
  intro n
  induction n with
  | zero => simpa using hg0.symm
  | succ n ih =>
    rw [List.range_succ, List.map_append, List.sum_append, ih]
    have h2 := hg n
    simp only [List.map_cons, List.map_nil, List.sum_cons, List.sum_nil]
    omega

/-- C8: for data_len >= 1, log2_num_seqs >= 1 and num_seqs = 2^log2_num_seqs <= data_len,
the forward sequence divider produces over its num_seqs successive Next() calls run
lengths (seq_len minus the returned decrement flag) that equal the exact real-division
slices floor((i+1)*data_len/num_seqs) - floor(i*data_len/num_seqs) in natural order,
sum to data_len, differ pairwise by at most one, and IsEnd() holds exactly after
num_seqs calls. -/
theorem claim_C8 (L l : Nat) (hL : 1 ≤ L) (hl : 1 ≤ l) (hNL : 2 ^ l ≤ L) :
    (SDRunLengths L l).length = 2 ^ l ∧
    (∀ i, i < 2 ^ l →
      (SDRunLengths L l).getD i 0 = (i + 1) * L / 2 ^ l - i * L / 2 ^ l) ∧
    (SDRunLengths L l).sum = L ∧
    (∀ i j, i < 2 ^ l → j < 2 ^ l →
      (SDRunLengths L l).getD i 0 ≤ (SDRunLengths L l).getD j 0 + 1) ∧
    (∀ k, k ≤ 2 ^ l →
      ((SDIter true k (SequenceDivider.make true L l)).isEnd = true ↔ k = 2 ^ l)) := by
  have hpos : 0 < 2 ^ l := Nat.pos_pow_of_pos l (by norm_num)
  obtain ⟨m, rfl⟩ : ∃ m, L = m + 1 := ⟨L - 1, by omega⟩
  have hms : m + 1 - 1 = m := by omega
  have h2 : m % 2 ^ l + 1 ≤ 2 ^ l := by
    have := Nat.mod_lt m hpos
    omega
  have hdecomp : m + 1 = m / 2 ^ l * 2 ^ l + (m % 2 ^ l + 1) := by
    have h := Nat.div_add_mod m (2 ^ l)
    calc m + 1 = 2 ^ l * (m / 2 ^ l) + m % 2 ^ l + 1 := by rw [h]
      _ = m / 2 ^ l * 2 ^ l + (m % 2 ^ l + 1) := by ring
  have hlen : (SDRunLengths (m + 1) l).length = 2 ^ l := by
    unfold SDRunLengths
    simp [SDSteps_length, Nat.one_shiftLeft]
  have hform : ∀ i, i < 2 ^ l → (SDRunLengths (m + 1) l).getD i 0
      = m / 2 ^ l + 1 -
        (if i * (m % 2 ^ l + 1) % 2 ^ l + (m % 2 ^ l + 1) < 2 ^ l then 1 else 0) := by
    intro i hi
    have hfc : i * (m % 2 ^ l + 1) % 2 ^ l < 2 ^ l := Nat.mod_lt _ hpos
    have hiter := SDIter_make (m + 1) l i
    rw [hms] at hiter
    have hb : (SDSteps true (2 ^ l) (SequenceDivider.make true (m + 1) l)).getD i false
        = decide (i * (m % 2 ^ l + 1) % 2 ^ l + (m % 2 ^ l + 1) < 2 ^ l) := by
      rw [SDSteps_getD true i (2 ^ l) _ hi, hiter, next_mk l _ _ _ h2 hfc]
    have hmi : i < (SDSteps true (2 ^ l) (SequenceDivider.make true (m + 1) l)).length := by
      rw [SDSteps_length]; exact hi
    unfold SDRunLengths
    simp only [Nat.one_shiftLeft, hms]
    rw [List.getD_eq_getElem _ 0 (by simpa [SDSteps_length] using hi), List.getElem_map,
      ← List.getD_eq_getElem _ false hmi, hb, Nat.shiftRight_eq_div_pow]
    simp [decide_eq_true_eq]
  have hstep : ∀ i, i < 2 ^ l → (SDRunLengths (m + 1) l).getD i 0
      = (i + 1) * (m + 1) / 2 ^ l - i * (m + 1) / 2 ^ l := by
    intro i hi
    have hcore := sd_slice_core (2 ^ l) (m / 2 ^ l) (m % 2 ^ l + 1) i hpos (by omega) h2
    rw [← hdecomp] at hcore
    rw [hform i hi]
    exact hcore
  have hmono : ∀ i : Nat, i * (m + 1) / 2 ^ l ≤ (i + 1) * (m + 1) / 2 ^ l := by
    intro i
    exact Nat.div_le_div_right (Nat.mul_le_mul_right _ (by omega))
  have hlist : SDRunLengths (m + 1) l = (List.range (2 ^ l)).map
      (fun i => (i + 1) * (m + 1) / 2 ^ l - i * (m + 1) / 2 ^ l) := by
    apply List.ext_getElem
    · rw [hlen]; simp
    · intro i h1 h2'
      have hi : i < 2 ^ l := by rw [hlen] at h1; exact h1
      rw [← List.getD_eq_getElem _ 0 h1, List.getElem_map, List.getElem_range]
      exact hstep i hi
  have hsum : (SDRunLengths (m + 1) l).sum = m + 1 := by
    have ht := range_map_telescope (fun j => j * (m + 1) / 2 ^ l) hmono (by simp) (2 ^ l)
    rw [hlist, ht]
    exact Nat.mul_div_cancel_left _ hpos
  have hpair : ∀ i j, i < 2 ^ l → j < 2 ^ l →
      (SDRunLengths (m + 1) l).getD i 0 ≤ (SDRunLengths (m + 1) l).getD j 0 + 1 := by
    intro i j hi hj
    rw [hform i hi, hform j hj]
    by_cases hci : i * (m % 2 ^ l + 1) % 2 ^ l + (m % 2 ^ l + 1) < 2 ^ l <;>
      by_cases hcj : j * (m % 2 ^ l + 1) % 2 ^ l + (m % 2 ^ l + 1) < 2 ^ l <;>
      simp only [if_pos, if_neg, hci, hcj, if_true, if_false] <;> omega
  have hend : ∀ k, k ≤ 2 ^ l →
      ((SDIter true k (SequenceDivider.make true (m + 1) l)).isEnd = true ↔ k = 2 ^ l) := by
    intro k hk
    rw [SDIter_make]
    simp only [SequenceDivider.isEnd, decide_eq_true_eq]
    omega
  exact ⟨hlen, hstep, hsum, hpair, hend⟩

lemma set_perm_cons (a : α) : ∀ (t : List α) (m : Nat), m < t.length →
    List.Perm (getE t m :: t.set m a) (a :: t) := by
  intro t
  induction t with
  | nil => intro m hm; simp at hm
  | cons b u ih =>
    intro m hm
    cases m with
    | zero => exact List.Perm.swap a b u
    | succ m =>
      have hm' : m < u.length := by simpa using hm
      have h0 : getE (b :: u) (m + 1) :: (b :: u).set (m + 1) a
          = getE u m :: b :: u.set m a := rfl
      rw [h0]
      exact ((List.Perm.swap b (getE u m) (u.set m a)).trans
        (List.Perm.cons b (ih m hm'))).trans (List.Perm.swap a b u)

lemma swap_set_perm : ∀ (l : List α) (i j : Nat), i < l.length → j < l.length →
    List.Perm ((l.set i (getE l j)).set j (getE l i)) l := by
  intro l
  induction l with
  | nil => intro i j hi _; simp at hi
  | cons a t ih =>
    intro i j hi hj
    cases i with
    | zero =>
      cases j with
      | zero => exact List.Perm.refl (a :: t)
      | succ j =>
        have hj' : j < t.length := by simpa using hj
        have h0 : ((a :: t).set 0 (getE (a :: t) (j + 1))).set (j + 1) (getE (a :: t) 0)
            = getE t j :: t.set j a := rfl
        rw [h0]
        exact set_perm_cons a t j hj'
    | succ i =>
      have hi' : i < t.length := by simpa using hi
      cases j with
      | zero =>
        have h0 : ((a :: t).set (i + 1) (getE (a :: t) 0)).set 0 (getE (a :: t) (i + 1))
            = getE t i :: t.set i a := rfl
        rw [h0]
        exact set_perm_cons a t i hi'
      | succ j =>
        have hj' : j < t.length := by simpa using hj
        exact List.Perm.cons a (ih i j hi' hj')

lemma marr_iswap (s : SortState α) (i j : Nat) : marr (iswap s i j) = marr s := by
  unfold iswap
  by_cases h : i < s.arr.length ∧ j < s.arr.length
  · rw [if_pos h]
    exact Multiset.coe_eq_coe.mpr (swap_set_perm s.arr i j h.1 h.2)
  · rw [if_neg h]

lemma marr_iswapIt (rev : Bool) (s : SortState α) (p q : Nat) :
    marr (iswapIt rev s p q) = marr s := marr_iswap s _ _

lemma marr_icomp (cmp : α → α → Bool) (rev strict : Bool) (s : SortState α) (p q : Nat) :
    marr ((icomp cmp rev strict s p q).2) = marr s := rfl

lemma marr_RotateSwapF (rev : Bool) : ∀ (fuel : Nat) (s : SortState α) (f m l : Nat),
    marr (RotateSwapF rev fuel s f m l) = marr s := by
  intro fuel
  induction fuel with
  | zero => intros; rfl
  | succ fuel ih =>
    intro s f m l
    simp only [RotateSwapF]
    split
    · rw [ih, marr_iswapIt]
    · rw [marr_iswapIt]

lemma marr_RotateSwapB (rev : Bool) : ∀ (fuel : Nat) (s : SortState α) (f m l : Nat),
    marr (RotateSwapB rev fuel s f m l) = marr s := by
  intro fuel
  induction fuel with
  | zero => intros; rfl
  | succ fuel ih =>
    intro s f m l
    simp only [RotateSwapB]
    split
    · rw [ih, marr_iswapIt]
    · rw [marr_iswapIt]

lemma marr_RevRange (rev : Bool) : ∀ (fuel : Nat) (s : SortState α) (lo hi : Nat),
    marr (RevRange rev fuel s lo hi) = marr s := by
  intro fuel
  induction fuel with
  | zero => intros; rfl
  | succ fuel ih =>
    intro s lo hi
    simp only [RevRange]
    split
    · rw [ih, marr_iswapIt]
    · rfl

lemma marr_RotateLoop (rev : Bool) : ∀ (fuel : Nat) (s : SortState α) (f m l a b c : Nat),
    marr (RotateLoop rev fuel s f m l a b c) = marr s := by
  intro fuel
  induction fuel with
  | zero => intros; rfl
  | succ fuel ih =>
    intro s f m l a b c
    simp only [RotateLoop]
    split
    · split
      · split
        · rw [marr_RotateSwapF]
        · rw [ih, marr_RotateSwapF]
      · split
        · rw [marr_RotateSwapB]
        · rw [ih, marr_RotateSwapB]
    · rw [marr_RevRange, marr_RevRange, marr_RevRange]

lemma marr_Rotate (rev : Bool) (s : SortState α) (f m l : Nat) :
    marr (Rotate rev s f m l) = marr s := by
  unfold Rotate
  rw [marr_RotateLoop]

lemma BinarySearchLoop_arr (strict rev : Bool) (cmp : α → α → Bool) :
    ∀ (fuel : Nat) (s : SortState α) (base len key : Nat),
      ((BinarySearchLoop strict rev cmp fuel s base len key).2).arr = s.arr := by
  intro fuel
  induction fuel with
  | zero => intros; rfl
  | succ fuel ih =>
    intro s base len key
    simp only [BinarySearchLoop, icomp]
    split
    · rw [ih]
    · rfl

lemma BinarySearch_arr (strict rev : Bool) (cmp : α → α → Bool) (first last key : Nat)
    (s : SortState α) : ((BinarySearch strict rev cmp first last key s).2).arr = s.arr := by
  unfold BinarySearch
  rw [BinarySearchLoop_arr]

lemma marr_BinarySearch (strict rev : Bool) (cmp : α → α → Bool) (first last key : Nat)
    (s : SortState α) : marr ((BinarySearch strict rev cmp first last key s).2) = marr s := by
  unfold marr
  rw [BinarySearch_arr]

lemma marr_SwapBlockLoop (rev : Bool) : ∀ (i : Nat) (s : SortState α) (a b : Nat),
    marr (SwapBlockLoop rev i s a b) = marr s := by
  intro i
  induction i with
  | zero => intros; rfl
  | succ i ih =>
    intro s a b
    simp only [SwapBlockLoop]
    rw [ih, marr_iswapIt]

lemma marr_SwapBlock (rev : Bool) (bl : Nat) (s : SortState α) (a b : Nat) :
    marr (SwapBlock rev bl s a b) = marr s := by
  simp only [SwapBlock]
  split
  · rfl
  · rw [marr_SwapBlockLoop]

lemma marr_ILBScan (rev : Bool) (cmp : α → α → Bool) :
    ∀ (fuel : Nat) (s : SortState α) (key rk least : Nat),
      marr ((ILBScan rev cmp fuel s key rk least).2) = marr s := by
  intro fuel
  induction fuel with
  | zero => intros; rfl
  | succ fuel ih =>
    intro s key rk least
    simp only [ILBScan]
    repeat' split
    all_goals simp only [ih, marr_icomp]

lemma marr_HSDescend (cmp : α → α → Bool) (data len : Nat) :
    ∀ (fuel : Nat) (s : SortState α) (cur : Nat),
      marr ((HSDescend cmp data len fuel s cur).2) = marr s := by
  intro fuel
  induction fuel with
  | zero => intros; rfl
  | succ fuel ih =>
    intro s cur
    simp only [HSDescend]
    repeat' split
    all_goals simp only [ih, marr_icomp]

lemma marr_HSClimbCmp (cmp : α → α → Bool) (data start : Nat) :
    ∀ (fuel : Nat) (s : SortState α) (cur : Nat),
      marr ((HSClimbCmp cmp data start fuel s cur).2) = marr s := by
  intro fuel
  induction fuel with
  | zero => intros; rfl
  | succ fuel ih =>
    intro s cur
    simp only [HSClimbCmp]
    repeat' split
    all_goals simp only [ih, marr_icomp]

lemma marr_HSClimbSwap (data start : Nat) : ∀ (fuel : Nat) (s : SortState α) (cur : Nat),
    marr (HSClimbSwap data start fuel s cur) = marr s := by
  intro fuel
  induction fuel with
  | zero => intros; rfl
  | succ fuel ih =>
    intro s cur
    simp only [HSClimbSwap]
    repeat' split
    all_goals simp only [ih, marr_iswap]

lemma marr_HeapSortLoop (cmp : α → α → Bool) (data : Nat) :
    ∀ (fuel : Nat) (s : SortState α) (start len : Nat),
      marr (HeapSortLoop cmp data fuel s start len) = marr s := by
  intro fuel
  induction fuel with
  | zero => intros; rfl
  | succ fuel ih =>
    intro s start len
    simp only [HeapSortLoop]
    repeat' split
    all_goals simp only [ih, marr_iswap, marr_HSClimbSwap, marr_HSClimbCmp, marr_HSDescend]

lemma marr_HeapSort (cmp : α → α → Bool) (data len : Nat) (s : SortState α) :
    marr (HeapSort cmp data len s) = marr s := by
  simp only [HeapSort]
  rw [marr_HeapSortLoop]

lemma marr_OddEvenPass (cmp : α → α → Bool) (data len : Nat) :
    ∀ (fuel : Nat) (s : SortState α) (j : Nat),
      marr (OddEvenPass cmp data len fuel s j) = marr s := by
  intro fuel
  induction fuel with
  | zero => intros; rfl
  | succ fuel ih =>
    intro s j
    simp only [OddEvenPass]
    repeat' split
    all_goals simp only [ih, marr_iswap, marr_icomp]

lemma marr_OddEvenSortAux (cmp : α → α → Bool) (data len : Nat) :
    ∀ (fuel : Nat) (s : SortState α) (i : Nat),
      marr (OddEvenSortAux cmp data len fuel s i) = marr s := by
  intro fuel
  induction fuel with
  | zero => intros; rfl
  | succ fuel ih =>
    intro s i
    simp only [OddEvenSortAux]
    repeat' split
    all_goals simp only [ih, marr_OddEvenPass]

lemma marr_OddEvenSort (cmp : α → α → Bool) (len data : Nat) (s : SortState α) :
    marr (OddEvenSort cmp len data s) = marr s := by
  simp only [OddEvenSort]
  rw [marr_OddEvenSortAux]

lemma marr_MWBCross (xsr rev : Bool) (cmp : α → α → Bool) :
    ∀ (fuel : Nat) (s : SortState α) (buf xs ys xl yl : Nat),
      marr ((MWBCross xsr rev cmp fuel s buf xs ys xl yl).2.2.2) = marr s := by
  intro fuel
  induction fuel with
  | zero => intros; rfl
  | succ fuel ih =>
    intro s buf xs ys xl yl
    simp only [MWBCross]
    repeat' split
    all_goals simp only [ih, marr_iswapIt, marr_icomp]

lemma marr_MWBTailX (xsr rev : Bool) (cmp : α → α → Bool) :
    ∀ (fuel : Nat) (s : SortState α) (buf xs ys yl : Nat),
      marr ((MWBTailX xsr rev cmp fuel s buf xs ys yl).2.2.2.2) = marr s := by
  intro fuel
  induction fuel with
  | zero => intros; rfl
  | succ fuel ih =>
    intro s buf xs ys yl
    simp only [MWBTailX]
    repeat' split
    all_goals simp only [ih, marr_iswapIt, marr_icomp]

lemma marr_MWBTailY (xsr rev : Bool) (cmp : α → α → Bool) :
    ∀ (fuel : Nat) (s : SortState α) (buf xs ys xl : Nat),
      marr ((MWBTailY xsr rev cmp fuel s buf xs ys xl).2.2.2.2) = marr s := by
  intro fuel
  induction fuel with
  | zero => intros; rfl
  | succ fuel ih =>
    intro s buf xs ys xl
    simp only [MWBTailY]
    repeat' split
    all_goals simp only [ih, marr_iswapIt, marr_icomp]

lemma marr_MWBFinal (rev : Bool) : ∀ (fuel : Nat) (s : SortState α) (ys xl xs : Nat),
    marr ((MWBFinal rev fuel s ys xl xs).2) = marr s := by
  intro fuel
  induction fuel with
  | zero => intros; rfl
  | succ fuel ih =>
    intro s ys xl xs
    simp only [MWBFinal]
    repeat' split
    all_goals simp only [ih, marr_iswapIt]

lemma marr_MergeWithBuf (xsr rev : Bool) (cmp : α → α → Bool) (buf xs ys yl : Nat)
    (s : SortState α) : marr ((MergeWithBuf xsr rev cmp buf xs ys yl s).2.2) = marr s := by
  simp only [MergeWithBuf]
  repeat' split
  all_goals simp only [marr_MWBCross, marr_MWBTailX, marr_MWBTailY, marr_MWBFinal]

lemma marr_MergeWithoutBufLoop (xsr rev : Bool) (cmp : α → α → Bool) :
    ∀ (fuel : Nat) (s : SortState α) (xs ys yl : Nat),
      marr ((MergeWithoutBufLoop xsr rev cmp fuel s xs ys yl).2) = marr s := by
  intro fuel
  induction fuel with
  | zero => intros; rfl
  | succ fuel ih =>
    intro s xs ys yl
    simp only [MergeWithoutBufLoop]
    repeat' split
    all_goals simp only [ih, marr_Rotate, marr_BinarySearch]

lemma marr_MergeWithoutBuf (xsr rev : Bool) (cmp : α → α → Bool) (xs ys yl : Nat)
    (s : SortState α) : marr ((MergeWithoutBuf xsr rev cmp xs ys yl s).2) = marr s := by
  simp only [MergeWithoutBuf]
  rw [marr_MergeWithoutBufLoop]

lemma marr_CKInsert : ∀ (fuel : Nat) (s : SortState α) (tmp inspos : Nat),
    marr (CKInsert fuel s tmp inspos) = marr s := by
  intro fuel
  induction fuel with
  | zero => intros; rfl
  | succ fuel ih =>
    intro s tmp inspos
    simp only [CKInsert]
    repeat' split
    all_goals simp only [ih, marr_iswap]

lemma marr_SortSwapBack : ∀ (fuel : Nat) (s : SortState α) (bd bb buf : Nat),
    marr (SortSwapBack fuel s bd bb buf) = marr s := by
  intro fuel
  induction fuel with
  | zero => intros; rfl
  | succ fuel ih =>
    intro s bd bb buf
    simp only [SortSwapBack]
    repeat' split
    all_goals simp only [ih, marr_iswap]

lemma marr_MABSkip (rev : Bool) : ∀ (fuel : Nat) (s : SortState α) (buf xs target : Nat),
    marr ((MABSkip rev fuel s buf xs target).2.2) = marr s := by
  intro fuel
  induction fuel with
  | zero => intros; rfl
  | succ fuel ih =>
    intro s buf xs target
    simp only [MABSkip]
    repeat' split
    all_goals simp only [ih, marr_iswapIt]

lemma marr_MABFinal (rev : Bool) : ∀ (fuel : Nat) (s : SortState α) (buf xs ys : Nat),
    marr ((MABFinal rev fuel s buf xs ys).2) = marr s := by
  intro fuel
  induction fuel with
  | zero => intros; rfl
  | succ fuel ih =>
    intro s buf xs ys
    simp only [MABFinal]
    repeat' split
    all_goals simp only [ih, marr_iswapIt]

lemma marr_DIBufLoop (rev : Bool) (cmp : α → α → Bool) (ie mk : Nat) :
    ∀ (fuel : Nat) (s : SortState α) (cur lc rc : Nat),
      marr ((DIBufLoop rev cmp ie mk fuel s cur lc rc).2.2) = marr s := by
  intro fuel
  induction fuel with
  | zero => intros; rfl
  | succ fuel ih =>
    intro s cur lc rc
    simp only [DIBufLoop]
    repeat' split
    all_goals simp only [ih, marr_iswapIt, marr_icomp]

lemma marr_DIBufAppend (rev : Bool) : ∀ (fuel : Nat) (s : SortState α) (lc buf rc : Nat),
    marr (DIBufAppend rev fuel s lc buf rc) = marr s := by
  intro fuel
  induction fuel with
  | zero => intros; rfl
  | succ fuel ih =>
    intro s lc buf rc
    simp only [DIBufAppend]
    repeat' split
    all_goals simp only [ih, marr_iswapIt]

lemma marr_DeinterleaveImitationBuf (rev : Bool) (cmp : α → α → Bool)
    (imit imit_len buf mk : Nat) (s : SortState α) :
    marr (DeinterleaveImitationBuf rev cmp imit imit_len buf mk s) = marr s := by
  simp only [DeinterleaveImitationBuf]
  repeat' split
  all_goals simp only [marr_DIBufAppend, marr_DIBufLoop, marr_iswapIt]

lemma marr_DIPassLoop (rev : Bool) (cmp : α → α → Bool) (ie : Nat) :
    ∀ (fuel : Nat) (s : SortState α) (cur lrl rrl pairs mk : Nat),
      marr ((DIPassLoop rev cmp ie fuel s cur lrl rrl pairs mk).2.2.2) = marr s := by
  intro fuel
  induction fuel with
  | zero => intros; rfl
  | succ fuel ih =>
    intro s cur lrl rrl pairs mk
    simp only [DIPassLoop]
    repeat' split
    all_goals simp only [ih, marr_Rotate, marr_icomp]

lemma marr_DIInplaceLoop (rev : Bool) (cmp : α → α → Bool) (imit ie il : Nat) :
    ∀ (fuel : Nat) (s : SortState α) (lrl mk : Nat),
      marr (DIInplaceLoop rev cmp imit ie il fuel s lrl mk) = marr s := by
  intro fuel
  induction fuel with
  | zero => intros; rfl
  | succ fuel ih =>
    intro s lrl mk
    simp only [DIInplaceLoop]
    repeat' split
    all_goals simp only [ih, marr_DIPassLoop]

lemma marr_DeinterleaveImitationInplace (rev : Bool) (cmp : α → α → Bool)
    (imit imit_len mk : Nat) (s : SortState α) :
    marr (DeinterleaveImitationInplace rev cmp imit imit_len mk s) = marr s := by
  simp only [DeinterleaveImitationInplace]
  repeat' split
  all_goals simp only [marr_DIInplaceLoop]

lemma marr_ILBLoop (rev : Bool) (cmp : α → α → Bool) (bl ork lrk : Nat) :
    ∀ (fuel : Nat) (s : SortState α) (lk rk lb rb llk llb lrk0 : Nat),
      marr ((ILBLoop rev cmp bl ork lrk fuel s lk rk lb rb llk llb lrk0).2) = marr s := by
  intro fuel
  induction fuel with
  | zero => intros; rfl
  | succ fuel ih =>
    intro s lk rk lb rb llk llb lrk0
    simp only [ILBLoop]
    repeat' split
    all_goals simp only [ih, marr_iswapIt, marr_SwapBlock, marr_ILBScan, marr_icomp]

lemma marr_InterleaveBlocks (rev : Bool) (cmp : α → α → Bool)
    (imit blocks imit_len bl : Nat) (s : SortState α) :
    marr ((InterleaveBlocks rev cmp imit blocks imit_len bl s).2) = marr s := by
  simp only [InterleaveBlocks]
  repeat' split
  all_goals simp only [marr_ILBLoop]

lemma marr_MABLoop (has_buf rev : Bool) (cmp : α → α → Bool) (p : BlockingParam) (mk : Nat) :
    ∀ (fuel : Nat) (s : SortState α) (imit buf xs lbby ys : Nat) (xso : Bool) (nr : Nat),
      marr ((MABLoop has_buf rev cmp p mk fuel s imit buf xs lbby ys xso nr).2.2.2) = marr s := by
  intro fuel
  induction fuel with
  | zero => intros; rfl
  | succ fuel ih =>
    intro s imit buf xs lbby ys xso nr
    simp only [MABLoop]
    repeat' split
    all_goals simp only [ih, marr_icomp, marr_MABSkip, marr_Rotate, marr_MergeWithBuf,
      marr_MergeWithoutBuf]

lemma marr_MergeAdjacentBlocks (has_buf rev : Bool) (cmp : α → α → Bool)
    (imit buf blocks : Nat) (p : BlockingParam) (mk : Nat) (s : SortState α) :
    marr ((MergeAdjacentBlocks has_buf rev cmp imit buf blocks p mk s).2) = marr s := by
  simp only [MergeAdjacentBlocks]
  repeat' split
  all_goals simp only [marr_MABFinal, marr_MABLoop]

lemma marr_MergeBlocking (has_buf rev : Bool) (cmp : α → α → Bool) (imit buf blocks : Nat)
    (p : BlockingParam) (s : SortState α) :
    marr ((MergeBlocking has_buf rev cmp imit buf blocks p s).2) = marr s := by
  simp only [MergeBlocking]
  repeat' split
  all_goals simp only [marr_DeinterleaveImitationBuf, marr_DeinterleaveImitationInplace,
    marr_MergeAdjacentBlocks, marr_InterleaveBlocks]

lemma marr_MergeOneLevelLoop (has_buf forward : Bool) (cmp : α → α → Bool)
    (imit seq_len rl : Nat) :
    ∀ (fuel : Nat) (p : BlockingParam) (s : SortState α) (buf data : Nat)
      (sd : SequenceDivider),
      marr (MergeOneLevelLoop has_buf forward cmp imit seq_len rl p fuel s buf data sd)
        = marr s := by
  intro fuel
  induction fuel with
  | zero => intros; rfl
  | succ fuel ih =>
    intro p s buf data sd
    simp only [MergeOneLevelLoop]
    repeat' split
    all_goals simp only [ih, marr_MergeBlocking]

lemma marr_MergeOneLevel (has_buf forward : Bool) (cmp : α → α → Bool)
    (imit buf data seq_len : Nat) (sd : SequenceDivider) (p : BlockingParam)
    (s : SortState α) :
    marr (MergeOneLevel has_buf forward cmp imit buf data seq_len sd p s) = marr s := by
  simp only [MergeOneLevel]
  rw [marr_MergeOneLevelLoop]

lemma marr_SortLeavesLoop (cmp : α → α → Bool) (seq_len : Nat) :
    ∀ (fuel : Nat) (s : SortState α) (c data : Nat) (sd : SequenceDivider),
      marr (SortLeavesLoop cmp seq_len fuel s c data sd) = marr s := by
  intro fuel
  induction fuel with
  | zero => intros; rfl
  | succ fuel ih =>
    intro s c data sd
    simp only [SortLeavesLoop]
    repeat' split
    all_goals simp only [ih, marr_OddEvenSort]

lemma marr_SortLeaves (cmp : α → α → Bool) (data seq_len : Nat) (sd : SequenceDivider)
    (s : SortState α) : marr (SortLeaves cmp data seq_len sd s) = marr s := by
  simp only [SortLeaves]
  rw [marr_SortLeavesLoop]

lemma marr_Sort0To8 (cmp : α → α → Bool) (data len : Nat) (s : SortState α) :
    marr (Sort0To8 cmp data len s) = marr s := by
  simp only [Sort0To8]
  repeat' split
  all_goals simp only [marr_SortLeaves, marr_iswap, marr_icomp]

lemma marr_CKLoop (cmp : α → α → Bool) (last : Nat) :
    ∀ (fuel : Nat) (s : SortState α) (keys kl cur ndk : Nat),
      marr ((CKLoop cmp last fuel s keys kl cur ndk).2.2) = marr s := by
  intro fuel
  induction fuel with
  | zero => intros; rfl
  | succ fuel ih =>
    intro s keys kl cur ndk
    simp only [CKLoop]
    repeat' split
    all_goals simp only [ih, marr_CKInsert, marr_Rotate, marr_icomp, marr_BinarySearch]

lemma marr_CollectKeys (cmp : α → α → Bool) (first last ndk : Nat) (s : SortState α) :
    marr ((CollectKeys cmp first last ndk s).2) = marr s := by
  simp only [CollectKeys]
  repeat' split
  all_goals simp only [marr_Rotate, marr_CKLoop]

lemma marr_SortLoop (cmp : α → α → Bool) (first last imit data : Nat) :
    ∀ (fuel : Nat) (s : SortState α) (ctrl : MergeSortControl),
      marr (SortLoop cmp first last imit data fuel s ctrl) = marr s := by
  intro fuel
  induction fuel with
  | zero => intros; rfl
  | succ fuel ih =>
    intro s ctrl
    simp only [SortLoop]
    repeat' split
    all_goals simp only [ih, marr_HeapSort, marr_SortSwapBack, marr_MergeOneLevel]

lemma marr_SortDriver (cmp : α → α → Bool) (first last : Nat) (s : SortState α) :
    marr ((SortDriver cmp first last s).2) = marr s := by
  simp only [SortDriver]
  repeat' split
  all_goals simp only [marr_MergeWithoutBuf, marr_SortLoop, marr_SortLeaves, marr_Sort0To8,
    marr_CollectKeys]

lemma marr_sortL (cmp : α → α → Bool) (l : List α) :
    marr ((sortL cmp l).2) = (l : Multiset α) := by
  simp only [sortL]
  rw [marr_SortDriver]
  rfl

lemma idx_false (p : Nat) : idx false p = p := rfl

lemma iinc_false (p : Nat) : iinc false p = p + 1 := rfl

lemma idec_false (p : Nat) : idec false p = p - 1 := rfl

lemma iadd_false (p d : Nat) : iadd false p d = p + d := rfl

lemma isubd_false (p d : Nat) : isubd false p d = p - d := rfl

lemma isub_false (p q : Nat) : isub false p q = p - q := rfl

lemma iltb_false (p q : Nat) : iltb false p q = decide (p < q) := rfl

lemma iswapIt_false (s : SortState α) (p q : Nat) : iswapIt false s p q = iswap s p q := rfl

lemma getE_at_append (X : List α) (a : α) (Z : List α) : getE (X ++ a :: Z) X.length = a := by
  induction X with
  | nil => rfl
  | cons x xs ih => simpa [getE] using ih

lemma iswap_comm (s : SortState α) (i j : Nat) (h : i ≠ j) : iswap s i j = iswap s j i := by
  unfold iswap
  by_cases hij : i < s.arr.length ∧ j < s.arr.length
  · rw [if_pos hij, if_pos ⟨hij.2, hij.1⟩,
      List.set_comm (getE s.arr j) (getE s.arr i) s.arr h]
  · rw [if_neg hij, if_neg fun hc => hij ⟨hc.2, hc.1⟩]

lemma iswap_mid (X Y Z : List α) (a b : α) (s : SortState α)
    (harr : s.arr = X ++ a :: (Y ++ b :: Z)) :
    (iswap s X.length (X.length + 1 + Y.length)).arr = X ++ b :: (Y ++ a :: Z) := by
  have hlen : s.arr.length = X.length + 1 + Y.length + 1 + Z.length := by
    rw [harr]; simp; omega
  have hga : getE s.arr X.length = a := by rw [harr]; exact getE_at_append X a _
  have hgb : getE s.arr (X.length + 1 + Y.length) = b := by
    rw [harr]
    have hre : X ++ a :: (Y ++ b :: Z) = (X ++ a :: Y) ++ b :: Z := by simp
    have hlen2 : X.length + 1 + Y.length = (X ++ a :: Y).length := by simp; omega
    rw [hre, hlen2]
    exact getE_at_append _ b _
  unfold iswap
  rw [if_pos ⟨by omega, by omega⟩]
  show (s.arr.set X.length (getE s.arr (X.length + 1 + Y.length))).set
      (X.length + 1 + Y.length) (getE s.arr X.length) = _
  rw [hga, hgb, harr]
  rw [List.set_append_right _ _ (le_refl X.length)]
  simp only [Nat.sub_self, List.set_cons_zero]
  have hre2 : X ++ b :: (Y ++ b :: Z) = (X ++ b :: Y) ++ b :: Z := by simp
  rw [hre2, List.set_append_right _ _ (by simp; omega)]
  have hidx : X.length + 1 + Y.length - (X ++ b :: Y).length = 0 := by simp; omega
  rw [hidx, List.set_cons_zero]
  simp

lemma rotate_concat (C' : List α) (c : α) : (C' ++ [c]).rotate C'.length = c :: C' := by
  rw [List.rotate_eq_drop_append_take (by simp)]
  simp

lemma rotate_to_self (L : List α) (n : Nat) (h : n % L.length = 0) : L.rotate n = L := by
  rw [← List.rotate_mod, h, List.rotate_zero]

lemma mod_cancel_lemma (rn ln : Nat) (hln : 1 ≤ ln) :
    (rn + (ln - rn % ln)) % ln = 0 := by
  obtain ⟨q, hq⟩ : ∃ q, ln * q + rn % ln = rn := ⟨rn / ln, Nat.div_add_mod rn ln⟩
  have hlt : rn % ln < ln := Nat.mod_lt _ (by omega)
  set A := ln * q with hA
  have h1 : rn + (ln - rn % ln) = A + ln := by omega
  rw [h1, hA, show ln * q + ln = ln * (q + 1) from by ring, Nat.mul_mod_right]

lemma mod_mul_lemma (ln rn : Nat) (h : ln % rn = 0) : (ln * (rn - 1)) % rn = 0 := by
  obtain ⟨q, hq⟩ := Nat.dvd_of_mod_eq_zero h
  rw [hq, show rn * q * (rn - 1) = rn * (q * (rn - 1)) from by ring, Nat.mul_mod_right]

lemma mod_cancel_lemma2 (ln rn : Nat) (hrn : 1 ≤ rn) (hrem : 1 ≤ ln % rn) :
    (ln * (rn - 1) + ln % rn) % rn = 0 := by
  obtain ⟨q, hq⟩ : ∃ q, rn * q + ln % rn = ln := ⟨ln / rn, Nat.div_add_mod ln rn⟩
  have hlt : ln % rn < rn := Nat.mod_lt _ (by omega)
  have h1 : ln * (rn - 1) + ln % rn = rn * (q * (rn - 1) + ln % rn) := by
    calc ln * (rn - 1) + ln % rn
        = (rn * q + ln % rn) * (rn - 1) + ln % rn := by rw [hq]
      _ = rn * (q * (rn - 1)) + (ln % rn * (rn - 1) + ln % rn) := by ring
      _ = rn * (q * (rn - 1)) + ln % rn * rn := by
          congr 1
          calc ln % rn * (rn - 1) + ln % rn = ln % rn * (rn - 1 + 1) := by ring
            _ = ln % rn * rn := by rw [show rn - 1 + 1 = rn from by omega]
      _ = rn * (q * (rn - 1) + ln % rn) := by ring
  rw [h1, Nat.mul_mod_right]

lemma RSF_exact : ∀ (k fuel : Nat), k ≤ fuel →
    ∀ (s : SortState α) (X B C POST : List α) (f m l : Nat),
    s.arr = X ++ B ++ C ++ POST → f = X.length → m = X.length + B.length → l = m + k →
    1 ≤ B.length → C.length = k → 1 ≤ k →
    (RotateSwapF false fuel s f m l).arr = X ++ C ++ B.rotate k ++ POST := by
  intro k
  induction k with
  | zero => intro fuel hk s X B C POST f m l _ _ _ _ _ _ hk1; omega
  | succ k ih =>
    intro fuel hk s X B C POST f m l harr hf hm hl hB hC _
    cases fuel with
    | zero => omega
    | succ fuel =>
      rcases B with _ | ⟨b, B'⟩
      · simp at hB
      rcases C with _ | ⟨c, C'⟩
      · simp at hC
      simp only [RotateSwapF, iswapIt_false, iinc_false]
      simp only [List.length_cons] at hm
      have harr2 : s.arr = X ++ b :: (B' ++ c :: (C' ++ POST)) := by rw [harr]; simp
      have hsw : (iswap s f m).arr = X ++ c :: (B' ++ b :: (C' ++ POST)) := by
        rw [hf, show m = X.length + 1 + B'.length from by omega]
        exact iswap_mid X B' (C' ++ POST) b c s harr2
      rcases Nat.eq_zero_or_pos k with rfl | hkpos
      · rw [if_neg (by omega)]
        have hC' : C' = [] := by simpa using hC
        subst hC'
        rw [hsw]
        simp [List.rotate_cons_succ]
      · rw [if_pos (by omega)]
        have hrec := ih fuel (by omega) (iswap s f m) (X ++ [c]) (B' ++ [b]) C' POST
          (f + 1) (m + 1) l (by rw [hsw]; simp) (by simp [hf]) (by simp <;> omega) (by omega)
          (by simp) (by simp at hC; omega) hkpos
        rw [hrec, List.rotate_cons_succ]
        simp

lemma RSB_exact : ∀ (k fuel : Nat), k ≤ fuel →
    ∀ (s : SortState α) (X B C POST : List α) (f m l : Nat),
    s.arr = X ++ B ++ C ++ POST → f = X.length → m = X.length + B.length → l = m + C.length →
    B.length = k → 1 ≤ C.length → 1 ≤ k →
    (RotateSwapB false fuel s f m l).arr
      = X ++ C.rotate (k * (C.length - 1)) ++ B ++ POST := by
  intro k
  induction k with
  | zero => intro fuel hk s X B C POST f m l _ _ _ _ _ _ hk1; omega
  | succ k ih =>
    intro fuel hk s X B C POST f m l harr hf hm hl hBlen hC _
    cases fuel with
    | zero => omega
    | succ fuel =>
      rcases B.eq_nil_or_concat with rfl | ⟨B', b, rfl⟩
      · simp at hBlen
      rcases C.eq_nil_or_concat with rfl | ⟨C', c, rfl⟩
      · simp at hC
      simp only [List.concat_eq_append] at harr hm hl hBlen hC ⊢
      simp only [RotateSwapB, iswapIt_false, idec_false]
      simp only [List.length_append, List.length_cons, List.length_nil] at hm hl hBlen
      have harr2 : s.arr = (X ++ B') ++ b :: (C' ++ c :: POST) := by rw [harr]; simp
      have hsw : (iswap s (l - 1) (m - 1)).arr = (X ++ B') ++ c :: (C' ++ b :: POST) := by
        rw [iswap_comm _ _ _ (by omega),
          show m - 1 = (X ++ B').length from by simp; omega,
          show l - 1 = (X ++ B').length + 1 + C'.length from by simp; omega]
        exact iswap_mid (X ++ B') C' POST b c s harr2
      rcases Nat.eq_zero_or_pos k with rfl | hkpos
      · have hB' : B' = [] := by simpa using hBlen
        subst hB'
        rw [if_neg (by omega)]
        rw [hsw]
        have e : (0 + 1) * ((C' ++ [c]).length - 1) = C'.length := by simp
        rw [e, rotate_concat]
        simp
      · rw [if_pos (by omega)]
        have hrec := ih fuel (by omega) (iswap s (l - 1) (m - 1)) X B' (c :: C') (b :: POST)
          f (m - 1) (l - 1) (by rw [hsw]; simp) hf (by omega) (by simp <;> omega)
          (by omega) (by simp) hkpos
        rw [hrec]
        have e1 : (c :: C').length - 1 = C'.length := by simp
        have e2 : (C' ++ [c]).length - 1 = C'.length := by simp
        rw [e1, e2]
        have e3 : (C' ++ [c]).rotate ((k + 1) * C'.length) = (c :: C').rotate (k * C'.length) := by
          rw [show (k + 1) * C'.length = C'.length + k * C'.length from by ring,
            ← List.rotate_rotate, rotate_concat]
        rw [e3]
        simp

lemma RevRange_exact : ∀ (fuel : Nat) (s : SortState α) (X B POST : List α) (lo hi : Nat),
    s.arr = X ++ B ++ POST → lo = X.length → hi = X.length + B.length → B.length ≤ fuel →
    (RevRange false fuel s lo hi).arr = X ++ B.reverse ++ POST := by
  intro fuel
  induction fuel with
  | zero =>
    intro s X B POST lo hi harr _ _ hlen
    have hB : B = [] := List.eq_nil_of_length_eq_zero (by omega)
    subst hB
    simpa using harr
  | succ fuel ih =>
    intro s X B POST lo hi harr hlo hhi hlen
    simp only [RevRange, idec_false, iltb_false, iinc_false, iswapIt_false,
      decide_eq_true_eq]
    by_cases hc : lo < hi - 1
    · rw [if_pos hc]
      rcases B with _ | ⟨b, T⟩
      · simp at hhi; omega
      rcases T.eq_nil_or_concat with rfl | ⟨M, e, rfl⟩
      · simp at hhi; omega
      simp only [List.concat_eq_append] at harr hhi hlen ⊢
      simp only [List.length_cons, List.length_append, List.length_nil] at hhi hlen
      have harr2 : s.arr = X ++ b :: (M ++ e :: POST) := by rw [harr]; simp
      have hsw : (iswap s lo (hi - 1)).arr = X ++ e :: (M ++ b :: POST) := by
        rw [hlo, show hi - 1 = X.length + 1 + M.length from by omega]
        exact iswap_mid X M POST b e s harr2
      have hrec := ih (iswap s lo (hi - 1)) (X ++ [e]) M (b :: POST) (lo + 1) (hi - 1)
        (by rw [hsw]; simp) (by simp <;> omega) (by simp <;> omega) (by omega)
      rw [hrec]
      simp
    · rw [if_neg hc]
      rcases B with _ | ⟨b, T⟩
      · simpa using harr
      rcases T with _ | ⟨b2, T2⟩
      · simpa using harr
      · exfalso
        simp at hhi
        omega

lemma RotateLoop_exact : ∀ (fuel : Nat) (s : SortState α) (X L R POST : List α)
    (f m l ln rn len : Nat),
    s.arr = X ++ L ++ R ++ POST → f = X.length → m = X.length + L.length →
    l = m + R.length → ln = L.length → rn = R.length → len = ln + rn →
    1 ≤ ln → 1 ≤ rn → len < fuel →
    (RotateLoop false fuel s f m l ln rn len).arr = X ++ R ++ L ++ POST := by
  intro fuel
  induction fuel with
  | zero => intros; omega
  | succ fuel ih =>
    intro s X L R POST f m l ln rn len harr hf hm hl hln hrn hlen h1 h2 hfu
    subst hf hm hl hln hrn hlen
    simp only [RotateLoop, iadd_false, isubd_false, isub_false]
    by_cases hbig : 64 < L.length + R.length
    · rw [if_pos hbig]
      by_cases hlr : L.length ≤ R.length
      · rw [if_pos hlr]
        have hs1 := RSF_exact R.length R.length (le_refl _) s X L R POST X.length
          (X.length + L.length) (X.length + L.length + R.length) harr rfl rfl rfl
          (by omega) rfl (by omega)
        by_cases hrem : R.length % L.length = 0
        · rw [if_pos hrem, hs1, rotate_to_self L _ hrem]
        · rw [if_neg hrem]
          have hmlt : R.length % L.length < L.length := Nat.mod_lt _ (by omega)
          have hcomb : (L.rotate R.length).drop (L.length - R.length % L.length) ++
              (L.rotate R.length).take (L.length - R.length % L.length) = L := by
            rw [← List.rotate_eq_drop_append_take (by simp <;> omega), List.rotate_rotate]
            exact rotate_to_self L _ (mod_cancel_lemma R.length L.length (by omega))
          have hrec := ih (RotateSwapF false R.length s X.length (X.length + L.length)
              (X.length + L.length + R.length)) (X ++ R)
            ((L.rotate R.length).take (L.length - R.length % L.length))
            ((L.rotate R.length).drop (L.length - R.length % L.length)) POST
            (X.length + R.length)
            (X.length + L.length + R.length - R.length % L.length)
            (X.length + L.length + R.length) (L.length - R.length % L.length)
            (R.length % L.length) L.length
            (by
              rw [hs1]
              conv_lhs => rw [← List.take_append_drop (L.length - R.length % L.length)
                (L.rotate R.length)]
              simp [List.append_assoc])
            (by simp) (by simp <;> omega) (by simp <;> omega) (by simp <;> omega)
            (by simp <;> omega) (by omega) (by omega) (by omega) (by omega)
          rw [hrec, List.append_assoc (X ++ R), hcomb]
      · rw [if_neg hlr]
        have hs1 := RSB_exact L.length L.length (le_refl _) s X L R POST X.length
          (X.length + L.length) (X.length + L.length + R.length) harr rfl rfl rfl
          rfl (by omega) (by omega)
        by_cases hrem : L.length % R.length = 0
        · rw [if_pos hrem, hs1, rotate_to_self R _ (mod_mul_lemma L.length R.length hrem)]
        · rw [if_neg hrem]
          have hmlt : L.length % R.length < R.length := Nat.mod_lt _ (by omega)
          have hcomb : (R.rotate (L.length * (R.length - 1))).drop (L.length % R.length) ++
              (R.rotate (L.length * (R.length - 1))).take (L.length % R.length) = R := by
            rw [← List.rotate_eq_drop_append_take (by simp <;> omega), List.rotate_rotate]
            exact rotate_to_self R _
              (mod_cancel_lemma2 L.length R.length (by omega) (by omega))
          have hrec := ih (RotateSwapB false L.length s X.length (X.length + L.length)
              (X.length + L.length + R.length)) X
            ((R.rotate (L.length * (R.length - 1))).take (L.length % R.length))
            ((R.rotate (L.length * (R.length - 1))).drop (L.length % R.length)) (L ++ POST)
            X.length (X.length + L.length % R.length)
            (X.length + L.length + R.length - L.length)
            (L.length % R.length) (R.length - L.length % R.length) R.length
            (by
              rw [hs1]
              conv_lhs => rw [← List.take_append_drop (L.length % R.length)
                (R.rotate (L.length * (R.length - 1)))]
              simp [List.append_assoc])
            rfl (by simp <;> omega) (by simp <;> omega) (by simp <;> omega) (by simp <;> omega)
            (by omega) (by omega) (by omega) (by omega)
          rw [hrec, List.append_assoc X, hcomb]
          simp [List.append_assoc]
    · rw [if_neg hbig]
      have hrev1 := RevRange_exact (X.length + L.length - X.length) s X L (R ++ POST)
        X.length (X.length + L.length) (by rw [harr]; simp) rfl rfl (by omega)
      have hrev2 := RevRange_exact (X.length + L.length + R.length - (X.length + L.length))
        (RevRange false (X.length + L.length - X.length) s X.length (X.length + L.length))
        (X ++ L.reverse) R POST (X.length + L.length) (X.length + L.length + R.length)
        (by rw [hrev1]; simp) (by simp) (by simp <;> omega) (by omega)
      have hrev3 := RevRange_exact (X.length + L.length + R.length - X.length)
        (RevRange false (X.length + L.length + R.length - (X.length + L.length))
          (RevRange false (X.length + L.length - X.length) s X.length (X.length + L.length))
          (X.length + L.length) (X.length + L.length + R.length))
        X (L.reverse ++ R.reverse) POST X.length (X.length + L.length + R.length)
        (by rw [hrev2]; simp) rfl (by simp <;> omega) (by simp <;> omega)
      rw [hrev3]
      simp [List.append_assoc]

lemma Rotate_exact (s : SortState α) (X L R POST : List α) (f m l : Nat)
    (harr : s.arr = X ++ L ++ R ++ POST) (hf : f = X.length) (hm : m = X.length + L.length)
    (hl : l = m + R.length) (h1 : 1 ≤ L.length) (h2 : 1 ≤ R.length) :
    (Rotate false s f m l).arr = X ++ R ++ L ++ POST := by
  simp only [Rotate, isub_false]
  exact RotateLoop_exact (m - f + (l - m) + 1) s X L R POST f m l (m - f) (l - m)
    (m - f + (l - m)) harr hf hm hl (by omega) (by omega) rfl (by omega) (by omega)
    (by omega)

/-- C9: rotation round trip.  For positions `first < middle < last` within the
sequence, `Rotate(first, middle, last)` followed by
`Rotate(first, last - (middle - first), last)` restores the sequence. -/
theorem claim_C9 (s : SortState α) (first middle last : Nat)
    (h1 : first < middle) (h2 : middle < last) (h3 : last ≤ s.arr.length) :
    (Rotate false (Rotate false s first middle last) first
        (last - (middle - first)) last).arr = s.arr := by
  set X := s.arr.take first with hX
  set L := (s.arr.drop first).take (middle - first) with hL
  set R := (s.arr.drop middle).take (last - middle) with hR
  set POST := s.arr.drop last with hPOST
  have hXlen : X.length = first := by rw [hX]; simp; omega
  have hLlen : L.length = middle - first := by rw [hL]; simp; omega
  have hRlen : R.length = last - middle := by rw [hR]; simp; omega
  have hdec : s.arr = X ++ L ++ R ++ POST := by
    have t1 : s.arr = X ++ s.arr.drop first := by
      rw [hX]; exact (List.take_append_drop first s.arr).symm
    have t2 : s.arr.drop first = L ++ s.arr.drop middle := by
      rw [hL]
      have t := List.take_append_drop (middle - first) (s.arr.drop first)
      rw [List.drop_drop, show first + (middle - first) = middle from by omega] at t
      exact t.symm
    have t3 : s.arr.drop middle = R ++ s.arr.drop last := by
      rw [hR]
      have t := List.take_append_drop (last - middle) (s.arr.drop middle)
      rw [List.drop_drop, show middle + (last - middle) = last from by omega] at t
      exact t.symm
    conv_lhs => rw [t1, t2, t3, ← hPOST]
    simp [List.append_assoc]
  have hrot1 := Rotate_exact s X L R POST first middle last hdec (by omega) (by omega)
    (by omega) (by omega) (by omega)
  have hrot2 := Rotate_exact (Rotate false s first middle last) X R L POST first
    (last - (middle - first)) last hrot1 (by omega) (by omega) (by omega) (by omega)
    (by omega)
  rw [hrot2]
  exact hdec.symm

/-- Concrete instantiation of `claim_C9` on `[10, 20, 30, 40, 50]` with
`first = 1`, `middle = 2`, `last = 4`. -/
theorem claim_C9_witness :
    1 < 2 ∧ 2 < 4 ∧
      4 ≤ ({ arr := [10, 20, 30, 40, 50], comps := 0, swaps := 0 } : SortState Nat).arr.length ∧
      (Rotate false
          (Rotate false
            ({ arr := [10, 20, 30, 40, 50], comps := 0, swaps := 0 } : SortState Nat) 1 2 4)
          1 (4 - (2 - 1)) 4).arr
        = ({ arr := [10, 20, 30, 40, 50], comps := 0, swaps := 0 } : SortState Nat).arr :=
  ⟨by decide, by decide, by decide,
    claim_C9 { arr := [10, 20, 30, 40, 50], comps := 0, swaps := 0 } 1 2 4
      (by decide) (by decide) (by decide)⟩

/-- C3 counterexample: the buffer-sorting step of the driver is `HeapSort`
(sayhisort.h line 1423), and as a function on sequences it differs from the
`shell_sort` reference algorithm: on three equal keys tagged with their
positions, heapsort reorders them while the gapped insertion sort does not. -/
theorem claim_C3_counterexample :
    (HeapSort (fun a b : Nat × Nat => decide (a.1 < b.1)) 0 3
        { arr := [(0, 0), (0, 1), (0, 2)], comps := 0, swaps := 0 }).arr ≠
      (shellSort (fun a b : Nat × Nat => decide (a.1 < b.1))
        { arr := [(0, 0), (0, 1), (0, 2)], comps := 0, swaps := 0 } 0 3).arr := by
  decide

/-- C3 amended: whenever the level controller retires the buffer, the driver
re-sorts the retired slice with `HeapSort`, not with `shell_sort`; heapsort
preserves the multiset of elements but is not extensionally equal to the
`shell_sort` reference: it may reorder equivalent keys, which `shell_sort`
never does. -/
theorem claim_C3_amended :
    (∀ (cmp : α → α → Bool) (data len : Nat) (s : SortState α),
      marr (HeapSort cmp data len s) = marr s) ∧
    (HeapSort (fun a b : Nat × Nat => decide (a.1 < b.1)) 0 3
        { arr := [(0, 0), (0, 1), (0, 2)], comps := 0, swaps := 0 }).arr
      = [(0, 2), (0, 0), (0, 1)] ∧
    (shellSort (fun a b : Nat × Nat => decide (a.1 < b.1))
        { arr := [(0, 0), (0, 1), (0, 2)], comps := 0, swaps := 0 } 0 3).arr
      = [(0, 0), (0, 1), (0, 2)] :=
  ⟨marr_HeapSort, by decide, by decide⟩

/-- C2: the multiset of elements in the range is preserved by every call to sort
and by every internal operation it performs (rotation, binary-search merge,
buffered merge, block interleave and de-interleave, key collection, leaf sort,
buffer sort).  In the embedding every element movement goes through the single
swap primitive `iswap`, so elements are never copied, duplicated or
default-constructed; the preservation below holds unconditionally. -/
theorem claim_C2 :
    (∀ (cmp : α → α → Bool) (l : List α),
      marr ((sortL cmp l).2) = (l : Multiset α)) ∧
    (∀ (rev : Bool) (s : SortState α) (first middle last : Nat),
      marr (Rotate rev s first middle last) = marr s) ∧
    (∀ (xsr rev : Bool) (cmp : α → α → Bool) (xs ys ys_last : Nat) (s : SortState α),
      marr ((MergeWithoutBuf xsr rev cmp xs ys ys_last s).2) = marr s) ∧
    (∀ (xsr rev : Bool) (cmp : α → α → Bool) (buf xs ys ys_last : Nat) (s : SortState α),
      marr ((MergeWithBuf xsr rev cmp buf xs ys ys_last s).2.2) = marr s) ∧
    (∀ (rev : Bool) (cmp : α → α → Bool) (imit blocks imit_len block_len : Nat)
      (s : SortState α),
      marr ((InterleaveBlocks rev cmp imit blocks imit_len block_len s).2) = marr s) ∧
    (∀ (rev : Bool) (cmp : α → α → Bool) (imit imit_len buf mid_key : Nat) (s : SortState α),
      marr (DeinterleaveImitationBuf rev cmp imit imit_len buf mid_key s) = marr s) ∧
    (∀ (rev : Bool) (cmp : α → α → Bool) (imit imit_len mid_key : Nat) (s : SortState α),
      marr (DeinterleaveImitationInplace rev cmp imit imit_len mid_key s) = marr s) ∧
    (∀ (cmp : α → α → Bool) (first last num_desired_keys : Nat) (s : SortState α),
      marr ((CollectKeys cmp first last num_desired_keys s).2) = marr s) ∧
    (∀ (cmp : α → α → Bool) (data seq_len : Nat) (sd : SequenceDivider) (s : SortState α),
      marr (SortLeaves cmp data seq_len sd s) = marr s) ∧
    (∀ (cmp : α → α → Bool) (data len : Nat) (s : SortState α),
      marr (HeapSort cmp data len s) = marr s) :=
  ⟨marr_sortL, marr_Rotate, marr_MergeWithoutBuf, marr_MergeWithBuf, marr_InterleaveBlocks,
    marr_DeinterleaveImitationBuf, marr_DeinterleaveImitationInplace, marr_CollectKeys,
    marr_SortLeaves, marr_HeapSort⟩

/-- C10: on an empty or single-element range the sort returns `last`, leaves the
range unchanged, invokes the comparator zero times and performs zero swaps (the
projection is part of the embedded comparator, so it is likewise never invoked). -/
theorem claim_C10 (cmp : α → α → Bool) (l : List α) (h : l.length ≤ 1) :
    sortL cmp l = (l.length, { arr := l, comps := 0, swaps := 0 }) := by
  have h8 : l.length ≤ 8 := by omega
  simp [sortL, SortDriver, Sort0To8, h, h8]

/-- Concrete instantiation of `claim_C10` on the single-element list `[3]`. -/
theorem claim_C10_witness :
    ([3] : List Nat).length ≤ 1 ∧
      sortL (fun a b => decide (a < b)) [3]
        = (([3] : List Nat).length, { arr := [3], comps := 0, swaps := 0 }) :=
  ⟨by decide, claim_C10 (fun a b => decide (a < b)) [3] (by decide)⟩

/-- Concrete instantiation of `claim_C8` at `data_len = 5`, `log2_num_seqs = 1`. -/
theorem claim_C8_witness :
    1 ≤ 5 ∧ 1 ≤ 1 ∧ 2 ^ 1 ≤ 5 ∧
    ((SDRunLengths 5 1).length = 2 ^ 1 ∧
      (∀ i, i < 2 ^ 1 →
        (SDRunLengths 5 1).getD i 0 = (i + 1) * 5 / 2 ^ 1 - i * 5 / 2 ^ 1) ∧
      (SDRunLengths 5 1).sum = 5 ∧
      (∀ i j, i < 2 ^ 1 → j < 2 ^ 1 →
        (SDRunLengths 5 1).getD i 0 ≤ (SDRunLengths 5 1).getD j 0 + 1) ∧
      (∀ k, k ≤ 2 ^ 1 →
        ((SDIter true k (SequenceDivider.make true 5 1)).isEnd = true ↔ k = 2 ^ 1))) :=
  ⟨by norm_num, by norm_num, by norm_num,
    claim_C8 5 1 (by norm_num) (by norm_num) (by norm_num)⟩

set_option maxRecDepth 100000 in
/-- Validation of the full driver on a concrete input: the nine leading pi
digits are sorted (this exercises key collection being skipped, leaf sorting
and the merge levels). -/
theorem sortL_sorts_pi_digits :
    (sortL (fun a b : Nat => decide (a < b)) [3, 1, 4, 1, 5, 9, 2, 6, 5]).2.arr
      = [1, 1, 2, 3, 4, 5, 5, 6, 9] := by
  decide

set_option maxRecDepth 100000 in
/-- Validation of stability on a concrete input: keys tagged with their input
positions come out with equal keys in ascending tag order. -/
theorem sortL_stable_on_tagged_keys :
    (sortL (fun a b : Nat × Nat => decide (a.1 < b.1))
        [(1, 0), (0, 1), (1, 2), (0, 3), (2, 4), (0, 5), (1, 6), (2, 7), (0, 8)]).2.arr
      = [(0, 1), (0, 3), (0, 5), (0, 8), (1, 0), (1, 2), (1, 6), (2, 4), (2, 7)] := by
  decide

end Sayhisort
